import Mathlib

/-!
Package `ae` (AppError): error chains with lazily resolved stack traces.

A shallow embedding of `errors.go` and `stack.go`.

* Go `error` interface values are `Option GoError`: `none` is the nil
  interface; a non-nil value is either a plain error (any dynamic type other
  than `*appError`, represented by the string its `Error()` method returns) or
  a pointer to an `appError` object.
* `*appError` pointers are addresses into `World.heap`.  An address that does
  not refer to an allocated object behaves like a nil `*appError`: reading or
  writing a field through it is a runtime fault.
* A runtime fault (nil dereference, index out of range) is the result `none`
  of an operation of type `Option _`.
* The package variables `IncludeStackInError` and `PrintToLog`, and the output
  of the default logger, are fields of `World`.
* `World.stackCaptures` is an observation trace: `getStackPC` records the
  `skip` argument of every call.
* The Go runtime and the libraries `fmt`, `io/ioutil` are the oracle
  `Runtime`.
-/

namespace ae

/-! ## Values -/

/-- Argument of a variadic `...interface{}` parameter. -/
inductive Arg where
  | int (n : Int)
  | str (s : String)
deriving DecidableEq, Repr

/-- Non-nil value of the Go interface type `error`. -/
inductive GoError where
  /-- Dynamic type is not `*appError`; `msg` is what `Error()` returns. -/
  | plain (msg : String)
  /-- Dynamic type is `*appError`; `ptr` is the address of the object. -/
  | chain (ptr : Nat)
deriving DecidableEq, Repr

/-- Represents `type stackFrame struct`. -/
structure stackFrame where
  funcName : String
  file : String
  line : Int
  lineContents : String
deriving DecidableEq, Repr

/-- Represents `type appError struct`.  A nil `frameCache` slice is `none`;
`[]stackFrame{}` is `some []`. -/
structure appError where
  underlying : List GoError
  stack : List Nat
  frameCache : Option (List stackFrame)
deriving DecidableEq, Repr

/-- Oracle for everything outside the package. -/
structure Runtime where
  /-- Models `fmt.Sprintf`. -/
  Sprintf : String → List Arg → String
  /-- Models `runtime.FuncForPC(pc).Name()`. -/
  FuncName : Nat → String
  /-- Models `runtime.FuncForPC(pc).FileLine(pc)`. -/
  FileLine : Nat → String × Int
  /-- Models `ioutil.ReadFile`; `none` is a non-nil `err`. -/
  ReadFile : String → Option String
  /-- Program counter recorded for the frame of `runtime.Callers`. -/
  pcCallers : Nat
  /-- Program counter recorded for the frame of `getStackPC`. -/
  pcGetStackPC : Nat
  /-- Program counter recorded for the frame of `wrapF`. -/
  pcWrapF : Nat
  /-- Program counter recorded for the frame of `Wrap`. -/
  pcWrap : Nat
  /-- Program counter recorded for the frame of `Wrapf`. -/
  pcWrapf : Nat
  /-- Program counter recorded for the frame of `Errorf`. -/
  pcErrorf : Nat

/-- Mutable program state. -/
structure World where
  /-- Allocated `appError` objects; a `*appError` is an index. -/
  heap : List appError
  /-- Package variable `IncludeStackInError`. -/
  IncludeStackInError : Bool
  /-- Package variable `PrintToLog`. -/
  PrintToLog : Bool
  /-- Lines handed to `log.Println`, oldest first. -/
  logOutput : List String
  /-- The `skip` argument of every `getStackPC` call so far, oldest first. -/
  stackCaptures : List Nat
deriving DecidableEq, Repr

/-- Initial state of the package: no chain allocated, both toggles `true`. -/
def World.init : World :=
  { heap := [], IncludeStackInError := true, PrintToLog := true,
    logOutput := [], stackCaptures := [] }

/-- Field read through a `*appError`. -/
def World.load (w : World) (p : Nat) : Option appError := w.heap[p]?

/-- Field write through a `*appError` that refers to an allocated object. -/
def World.store (w : World) (p : Nat) (obj : appError) : World :=
  { w with heap := w.heap.set p obj }

/-- Models `&appError{...}`: a fresh object at a fresh address. -/
def World.alloc (w : World) (obj : appError) : Nat × World :=
  (w.heap.length, { w with heap := w.heap ++ [obj] })

/-! ## Library functions used by the package -/

namespace strings

/-- Models `strings.Contains`. -/
def Contains (s substr : String) : Bool :=
  s.toList.tails.any (fun t => substr.toList.isPrefixOf t)

/-- Scan of `strings.Split` for a non-empty separator: `skip` counts the
characters of a matched separator still to pass over, `cur` holds the characters
of the current part, last first. -/
def splitGo (sep : List Char) : List Char → Nat → List Char → List String
  | [], _, cur => [String.mk cur.reverse]
  | _ :: cs, skip + 1, cur => splitGo sep cs skip cur
  | c :: cs, 0, cur =>
    if sep.isPrefixOf (c :: cs) then
      String.mk cur.reverse :: splitGo sep cs (sep.length - 1) []
    else
      splitGo sep cs 0 (c :: cur)

/-- Models `strings.Split(s, sep)` for a non-empty `sep`: the parts of `s`
between the non-overlapping occurrences of `sep`, found left to right. -/
def Split (s sep : String) : List String := splitGo sep.toList s.toList 0 []

/-- Models `strings.Trim`: drops leading and trailing characters of `cutset`. -/
def Trim (s cutset : String) : String :=
  String.mk
    (((s.toList.dropWhile (fun c => cutset.toList.contains c)).reverse.dropWhile
      (fun c => cutset.toList.contains c)).reverse)

end strings

/-- Models `fmt.Errorf`: a new plain error whose message is the formatted text. -/
def fmtErrorf (rt : Runtime) (format : String) (a : List Arg) : GoError :=
  .plain (rt.Sprintf format a)

/-- Models `runtime.Callers(skip, buf)` with `len(buf) = bufSize`: the filled part
of `buf`.  `callStack` is the stack at the call, innermost first, its head being
the frame of `runtime.Callers` itself. -/
def runtimeCallers (callStack : List Nat) (skip bufSize : Nat) : List Nat :=
  (callStack.drop skip).take bufSize

/-! ## stack.go -/

/-- Constant `skipPastRuntimeCall`. -/
def skipPastRuntimeCall : Bool := true

/-- Constant `StackSeparator`. -/
def StackSeparator : String := "; "

/-- Constant `bufSize` of `getStackPC`. -/
def bufSize : Nat := 20

set_option linter.unusedVariables false in
/-- The `for` loop of `getStackPC`: one iteration, then the loop test
`numCallers == bufSize` with the post statement `skip += numCallers`. -/
def getStackPCLoop (callStack : List Nat) (skip : Nat) (pc : List Nat) : List Nat :=
  let buf := runtimeCallers callStack skip bufSize
  let numCallers := buf.length
  if h : numCallers = bufSize then
    getStackPCLoop callStack (skip + numCallers) (pc ++ buf)
  else
    pc ++ buf
termination_by callStack.length - skip
decreasing_by
  have h20 : (runtimeCallers callStack skip bufSize).length = bufSize := h
  simp only [runtimeCallers, bufSize, List.length_take, List.length_drop] at h20 ⊢
  omega

/-- Models `getStackPC(skip)`.  `callStack` is the stack inside `getStackPC`,
its head being the frame of `getStackPC`. -/
def getStackPC (rt : Runtime) (callStack : List Nat) (w : World) (skip : Nat) :
    List Nat × World :=
  (getStackPCLoop (rt.pcCallers :: callStack) (skip + 2) [],
   { w with stackCaptures := w.stackCaptures ++ [skip] })

/-- Models `getFileLine`.  `none` is the index-out-of-range fault of
`lines[line-1]`. -/
def getFileLine (rt : Runtime) (file : String) (line : Int) : Option String :=
  match rt.ReadFile file with
  | none => some "[file not found]"
  | some bss =>
    let lines := strings.Split bss "\n"
    if line ≥ (lines.length : Int) then
      some "[line not found]"
    else if line - 1 < 0 then
      none
    else
      match lines[(line - 1).toNat]? with
      | none => none
      | some l => some (strings.Trim l " \t")

/-- Models `frame(f, file, line)`, with `name = f.Name()`. -/
def frame (rt : Runtime) (name file : String) (line : Int) : Option stackFrame :=
  match getFileLine rt file line with
  | none => none
  | some lineContents => some { funcName := name, file := file, line := line,
                                lineContents := lineContents }

/-- The `for _, pc := range ae.stack` loop of `getStack`; `cache` is
`ae.frameCache` so far. -/
def getStackLoop (rt : Runtime) : List Nat → List stackFrame → Option (List stackFrame)
  | [], cache => some cache
  | pc :: rest, cache =>
    let name := rt.FuncName pc
    let fl := rt.FileLine pc
    if skipPastRuntimeCall && strings.Contains name "runtime.call64" then
      some cache
    else
      match frame rt name fl.1 fl.2 with
      | none => none
      | some f => getStackLoop rt rest (cache ++ [f])

/-- Models `(*appError).getStack`. -/
def getStack (rt : Runtime) (w : World) (p : Nat) : Option (List stackFrame × World) :=
  match w.load p with
  | none => none
  | some ae =>
    match ae.frameCache with
    | some cache => some (cache, w)
    | none =>
      match getStackLoop rt ae.stack [] with
      | none => none
      | some cache => some (cache, w.store p { ae with frameCache := some cache })

/-- Models `fmt.Sprintf("%s:%v %s: %s", f.file, f.line, f.funcName, f.lineContents)`. -/
def frameText (f : stackFrame) : String :=
  f.file ++ ":" ++ toString f.line ++ " " ++ f.funcName ++ ": " ++ f.lineContents

/-- The `for` loop of `Stack`, from the buffer contents `buf`. -/
def StackLoop : List stackFrame → String → String
  | [], buf => buf
  | f :: rest, buf =>
    let buf1 := if buf.length > 0 then buf ++ StackSeparator else buf
    StackLoop rest (buf1 ++ frameText f)

/-- Models `(*appError).Stack`. -/
def Stack (rt : Runtime) (w : World) (p : Nat) : Option (String × World) :=
  match getStack rt w p with
  | none => none
  | some (fs, w1) => some (StackLoop fs "", w1)

/-! ## errors.go -/

/-- Models `(*appError).Errors`. -/
def Errors (w : World) (p : Nat) : Option (List GoError) :=
  match w.load p with
  | none => none
  | some ae => some ae.underlying

/-- Models `(*appError).First`: `ae.underlying[0]`. -/
def First (w : World) (p : Nat) : Option GoError :=
  match w.load p with
  | none => none
  | some ae => ae.underlying[0]?

/-- Models `(*appError).Last`: `ae.underlying[len(ae.underlying)-1]`. -/
def Last (w : World) (p : Nat) : Option GoError :=
  match w.load p with
  | none => none
  | some ae =>
    if ae.underlying.length = 0 then none
    else ae.underlying[ae.underlying.length - 1]?

/-- The loop of `errorMsgs` over the causes still to visit (most recent
first); `errorOf` is the dynamic dispatch of `e.Error()`. -/
def errorMsgsLoop (errorOf : World → GoError → Option (String × World)) :
    List GoError → String → World → Option (String × World)
  | [], buf, w => some (buf, w)
  | e :: rest, buf, w =>
    let buf1 := if buf.length > 0 then buf ++ ": " else buf
    match errorOf w e with
    | none => none
    | some (s, w1) => errorMsgsLoop errorOf rest (buf1 ++ s) w1

/-- Models `(*appError).errorMsgs`: the causes are visited from index
`len-1` down to `0`.  No `Error()` method appends to `underlying`, so the
slice is read once. -/
def errorMsgs (errorOf : World → GoError → Option (String × World))
    (w : World) (p : Nat) : Option (String × World) :=
  match w.load p with
  | none => none
  | some ae => errorMsgsLoop errorOf ae.underlying.reverse "" w

/-- The frame loop of `PrintTolog`. -/
def PrintTologLoop : List stackFrame → String → String
  | [], buf => buf
  | f :: rest, buf =>
    PrintTologLoop rest
      (buf ++ ("  " ++ f.file ++ ":" ++ toString f.line ++ "\n    " ++ f.funcName ++ ": "
        ++ f.lineContents ++ "\n"))

/-- Models `(*appError).PrintTolog`. -/
def PrintTolog (errorOf : World → GoError → Option (String × World))
    (rt : Runtime) (w : World) (p : Nat) : Option World :=
  match errorMsgs errorOf w p with
  | none => none
  | some (msgs, w1) =>
    match getStack rt w1 p with
    | none => none
    | some (fs, w2) =>
      some { w2 with logOutput := w2.logOutput ++ [PrintTologLoop fs (msgs ++ "\n")] }

/-- Models `(*appError).Error`, given the dispatch for the causes. -/
def appErrorError (errorOf : World → GoError → Option (String × World))
    (rt : Runtime) (w : World) (p : Nat) : Option (String × World) :=
  match (if w.PrintToLog then PrintTolog errorOf rt w p else some w) with
  | none => none
  | some w1 =>
    if w1.IncludeStackInError then
      match errorMsgs errorOf w1 p with
      | none => none
      | some (msgs, w2) =>
        match Stack rt w2 p with
        | none => none
        | some (st, w3) => some (msgs ++ StackSeparator ++ st, w3)
    else
      errorMsgs errorOf w1 p

/-- Dynamic dispatch of `e.Error()` on an `error` value.  `fuel` bounds the
nesting depth of chains reached through causes. -/
def GoError.Error (rt : Runtime) : Nat → World → GoError → Option (String × World)
  | _, w, .plain msg => some (msg, w)
  | 0, _, .chain _ => none
  | fuel + 1, w, .chain p => appErrorError (GoError.Error rt fuel) rt w p

/-- Models `wrapF(underlying, extraErrors...)`.  `callStack` is the stack
inside `wrapF`, its head being the frame of `wrapF`. -/
def wrapF (rt : Runtime) (callStack : List Nat) (w : World)
    (underlying : Option GoError) (extraErrors : List GoError) :
    Option (Option GoError × World) :=
  match underlying with
  | none => some (none, w)
  | some (.chain aerr) =>
    if extraErrors.length > 0 then
      match w.load aerr with
      | none => none
      | some obj =>
        some (some (.chain aerr),
              w.store aerr { obj with underlying := obj.underlying ++ extraErrors })
    else
      some (some (.chain aerr), w)
  | some (.plain msg) =>
    let underlyingErrs := [GoError.plain msg] ++ extraErrors
    let r := getStackPC rt (rt.pcGetStackPC :: callStack) w 2
    let a := r.2.alloc { underlying := underlyingErrs, stack := r.1, frameCache := none }
    some (some (.chain a.1), a.2)

/-- Models `Errorf`.  `callers` is the stack of the caller, innermost first. -/
def Errorf (rt : Runtime) (callers : List Nat) (w : World) (format : String)
    (a : List Arg) : Option (Option GoError × World) :=
  wrapF rt (rt.pcWrapF :: rt.pcErrorf :: callers) w (some (fmtErrorf rt format a)) []

/-- Models `Wrap`. -/
def Wrap (rt : Runtime) (callers : List Nat) (w : World) (underlying : Option GoError) :
    Option (Option GoError × World) :=
  wrapF rt (rt.pcWrapF :: rt.pcWrap :: callers) w underlying []

/-- Models `Wrapf`. -/
def Wrapf (rt : Runtime) (callers : List Nat) (w : World) (underlying : Option GoError)
    (format : String) (a : List Arg) : Option (Option GoError × World) :=
  match underlying with
  | none => some (none, w)
  | some e => wrapF rt (rt.pcWrapF :: rt.pcWrapf :: callers) w (some e) [fmtErrorf rt format a]

/-! ## A concrete runtime for evaluating the model -/

/-- Formatting of one operand by the verb `%v`. -/
def Arg.format : Arg → String
  | .int n => toString n
  | .str s => s

/-- The fragment of `fmt.Sprintf` in which the only verb is `%v` and every
`%v` has an operand: each `%v` is replaced by the next operand, the other
text is copied. -/
def sprintfV : List Char → List Arg → List Char
  | [], _ => []
  | [c], _ => [c]
  | c :: d :: rest, as =>
    if c = '%' ∧ d = 'v' then
      match as with
      | [] => c :: d :: sprintfV rest []
      | a :: as1 => a.format.toList ++ sprintfV rest as1
    else
      c :: sprintfV (d :: rest) as

/-- A runtime with one source file `errors_test.go` and three known
program counters above the library frames. -/
def sampleRuntime : Runtime where
  Sprintf := fun format a => String.mk (sprintfV format.toList a)
  FuncName := fun pc =>
    if pc = 100 then "ae.TestErrors"
    else if pc = 101 then "testing.tRunner"
    else if pc = 102 then "runtime.goexit"
    else "ae.internal"
  FileLine := fun pc =>
    if pc = 100 then ("errors_test.go", 2)
    else if pc = 101 then ("testing.go", 7)
    else if pc = 102 then ("asm.s", 1)
    else ("errors.go", 1)
  ReadFile := fun file =>
    if file = "errors_test.go" then some "package ae\n\terr := Wrap(simpleErr) \nend\n"
    else none
  pcCallers := 1
  pcGetStackPC := 2
  pcWrapF := 3
  pcWrap := 4
  pcWrapf := 5
  pcErrorf := 6

/-- The stack of a caller in `TestErrors`. -/
def sampleCallers : List Nat := [100, 101, 102]

/-- A world with one chain at address `0`, created by `Wrap(errors.New("test"))`
in `TestErrors`. -/
def sampleWorld : World :=
  { heap := [{ underlying := [.plain "test"], stack := [100, 101, 102], frameCache := none }],
    IncludeStackInError := true, PrintToLog := true, logOutput := [], stackCaptures := [2] }

/-- The frames of the chain of `sampleWorld`, resolved by `sampleRuntime`. -/
def sampleFrames : List stackFrame :=
  [{ funcName := "ae.TestErrors", file := "errors_test.go", line := 2,
     lineContents := "err := Wrap(simpleErr)" },
   { funcName := "testing.tRunner", file := "testing.go", line := 7,
     lineContents := "[file not found]" },
   { funcName := "runtime.goexit", file := "asm.s", line := 1,
     lineContents := "[file not found]" }]

/-- The `Stack()` string of the chain of `sampleWorld`. -/
def sampleStack : String :=
  "errors_test.go:2 ae.TestErrors: err := Wrap(simpleErr); " ++
  "testing.go:7 testing.tRunner: [file not found]; asm.s:1 runtime.goexit: [file not found]"

/-- The state `sampleWorld` after the first `getStack` on its chain. -/
def sampleWorldResolved : World :=
  { sampleWorld with
    heap := [{ underlying := [.plain "test"], stack := [100, 101, 102],
               frameCache := some sampleFrames }] }

/-- A runtime with two source files.  `main.go` ends with a newline; in it
`inner` (line 4, program counter 300) calls `Wrap` and `outer` (line 8, program
counter 301) calls `inner`.  `last.go` does not end with a newline; its last
line, line 3 (program counter 304), calls `Errorf`.  Program counter 302 is the
dispatch frame `runtime.call64` of a call made through `reflect`, 303 its
caller. -/
def mainRuntime : Runtime where
  Sprintf := fun format a => String.mk (sprintfV format.toList a)
  FuncName := fun pc =>
    if pc = 300 then "main.inner"
    else if pc = 301 then "main.outer"
    else if pc = 302 then "runtime.call64"
    else if pc = 303 then "reflect.Value.call"
    else if pc = 304 then "main.init"
    else "main.main"
  FileLine := fun pc =>
    if pc = 300 then ("main.go", 4)
    else if pc = 301 then ("main.go", 8)
    else if pc = 302 then ("asm_amd64.s", 1)
    else if pc = 303 then ("value.go", 1)
    else if pc = 304 then ("last.go", 3)
    else ("main.go", 1)
  ReadFile := fun file =>
    if file = "main.go" then
      some ("package main\n\nfunc inner() error \x7b\n\treturn ae.Wrap(errBase)\n\x7d\n\n" ++
        "func outer() error \x7b\n\tif err := inner(); err != nil \x7b\n\t\treturn err\n" ++
        "\t\x7d\n\treturn nil\n\x7d\n")
    else if file = "last.go" then
      some "package main\n\nvar errInit = ae.Errorf(msg)"
    else none
  pcCallers := 1
  pcGetStackPC := 2
  pcWrapF := 3
  pcWrap := 4
  pcWrapf := 5
  pcErrorf := 6

/-- A world with one chain at address `0` whose raw stack passes through the
dispatch frame 302: `[main.inner, main.outer, runtime.call64, reflect.Value.call]`. -/
def reflectWorld : World :=
  { heap := [{ underlying := [.plain "base"], stack := [300, 301, 302, 303],
               frameCache := none }],
    IncludeStackInError := true, PrintToLog := true, logOutput := [], stackCaptures := [2] }

/-- The frames of the chain of `reflectWorld`, resolved by `mainRuntime`. -/
def reflectFrames : List stackFrame :=
  [{ funcName := "main.inner", file := "main.go", line := 4,
     lineContents := "return ae.Wrap(errBase)" },
   { funcName := "main.outer", file := "main.go", line := 8,
     lineContents := "if err := inner(); err != nil \x7b" }]

/-- An `error` value is live when it is nil, plain, or a pointer to an allocated
`appError` (not a nil `*appError` inside a non-nil interface). -/
def live (w : World) : Option GoError → Bool
  | some (.chain p) => (w.load p).isSome
  | _ => true

/-! ## Auxiliary definitions used in the statements -/

/-- The state after the allocating branch of `wrapF`. -/
def created (rt : Runtime) (callStack : List Nat) (w : World) (errs : List GoError) : World :=
  { w with
    heap := w.heap ++ [{ underlying := errs,
                         stack := getStackPCLoop (rt.pcCallers :: rt.pcGetStackPC :: callStack) 4 [],
                         frameCache := none }],
    stackCaptures := w.stackCaptures ++ [2] }

/-- The buffer idiom shared by `errorMsgs` and `Stack`: before each item the
separator is written when the buffer is not empty. -/
def joinLoop (sep : String) : List String → String → String
  | [], buf => buf
  | x :: rest, buf => joinLoop sep rest ((if buf.length > 0 then buf ++ sep else buf) ++ x)

/-- The message of a cause that is a plain error. -/
def GoError.msg : GoError → String
  | .plain m => m
  | .chain _ => ""

/-- Holds when no cause is itself a chain. -/
def allPlain (errs : List GoError) : Bool :=
  errs.all (fun e => match e with
    | .plain _ => true
    | .chain _ => false)

/-- The frames `getStack` returns for an object: the cache when it is set,
otherwise the resolution of the raw stack. -/
def resolved (rt : Runtime) (obj : appError) : Option (List stackFrame) :=
  match obj.frameCache with
  | some cache => some cache
  | none => getStackLoop rt obj.stack []

/-- The chain at `p` has the causes and the resolved frames of `obj`, and the
toggle `IncludeStackInError` is `incl`. -/
def sameChain (rt : Runtime) (p : Nat) (obj : appError) (incl : Bool) (w : World) : Prop :=
  ∃ o, w.load p = some o ∧ o.underlying = obj.underlying ∧ resolved rt o = resolved rt obj ∧
    w.IncludeStackInError = incl

/-- The frame `getStack` builds for one program counter: `frame(f, file, line)`
with `f = runtime.FuncForPC(pc)` and `file, line = f.FileLine(pc)`. -/
def resolvePC (rt : Runtime) (pc : Nat) : Option stackFrame :=
  frame rt (rt.FuncName pc) (rt.FileLine pc).1 (rt.FileLine pc).2

/-- A call of one of the public functions of the package. -/
inductive Call where
  | Wrap (callers : List Nat) (underlying : Option GoError)
  | Wrapf (callers : List Nat) (underlying : Option GoError) (format : String) (a : List Arg)
  | Errorf (callers : List Nat) (format : String) (a : List Arg)
deriving DecidableEq, Repr

/-- The effect of one call. -/
def Call.run (rt : Runtime) (w : World) : Call → Option (Option GoError × World)
  | .Wrap callers underlying => ae.Wrap rt callers w underlying
  | .Wrapf callers underlying format a => ae.Wrapf rt callers w underlying format a
  | .Errorf callers format a => ae.Errorf rt callers w format a

/-- Holds when the base error that reaches `wrapF` is a plain error: `Wrap` and
`Wrapf` of a plain error, and every `Errorf`. -/
def Call.wrapsPlain : Call → Bool
  | .Wrap _ (some (.plain _)) => true
  | .Wrapf _ (some (.plain _)) _ _ => true
  | .Errorf _ _ _ => true
  | _ => false

/-- A sequence of calls, run in order; `none` when one of them faults. -/
def runCalls (rt : Runtime) : World → List Call → Option World
  | w, [] => some w
  | w, c :: cs =>
    match c.run rt w with
    | none => none
    | some r => runCalls rt r.2 cs

/-- Every allocated chain has at least one cause and no cause that is a chain. -/
def wellFormed (w : World) : Prop :=
  ∀ p obj, w.load p = some obj → obj.underlying ≠ [] ∧ allPlain obj.underlying = true

/-- The calls of one test: `Wrap(simpleErr)`, then `Wrapf` and `Wrap` on the
chain returned, `Wrap(nil)`, and an `Errorf`. -/
def sampleCalls : List Call :=
  [.Wrap sampleCallers (some (.plain "test")),
   .Wrapf sampleCallers (some (.chain 0)) "err %v %v %v" [.int 1, .int 2, .int 4],
   .Wrap sampleCallers (some (.chain 0)),
   .Wrap sampleCallers none,
   .Errorf sampleCallers "nested" []]

/-- The state after `sampleCalls`, run from `World.init`. -/
def sampleCallsWorld : World :=
  { heap := [{ underlying := [.plain "test", .plain "err 1 2 4"], stack := [100, 101, 102],
               frameCache := none },
             { underlying := [.plain "nested"], stack := [100, 101, 102], frameCache := none }],
    IncludeStackInError := true, PrintToLog := true, logOutput := [], stackCaptures := [2, 2] }

/-! ## Basic facts about the heap -/

theorem load_fresh (w : World) : w.load w.heap.length = none := by
  simp [World.load]

theorem load_alloc_new (w : World) (obj : appError) :
    (w.alloc obj).2.load w.heap.length = some obj := by
  simp [World.load, World.alloc]

theorem load_store_same (w : World) (p : Nat) (old obj : appError)
    (h : w.load p = some old) : (w.store p obj).load p = some obj := by
  have hp : p < w.heap.length := by
    simp only [World.load] at h
    exact (List.getElem?_eq_some.mp h).1
  simp [World.load, World.store, List.getElem?_set, hp]

theorem load_store_other (w : World) (p q : Nat) (obj : appError) (h : q ≠ p) :
    (w.store p obj).load q = w.load q := by
  simp [World.load, World.store, List.getElem?_set, Ne.symm h]

/-! ## Creating chains -/

theorem wrapF_plain (rt : Runtime) (callStack : List Nat) (w : World) (msg : String)
    (extraErrors : List GoError) :
    wrapF rt callStack w (some (.plain msg)) extraErrors
      = some (some (.chain w.heap.length),
              created rt callStack w (.plain msg :: extraErrors)) := rfl

theorem load_created (rt : Runtime) (callStack : List Nat) (w : World) (errs : List GoError) :
    (created rt callStack w errs).load w.heap.length
      = some { underlying := errs,
               stack := getStackPCLoop (rt.pcCallers :: rt.pcGetStackPC :: callStack) 4 [],
               frameCache := none } := by
  simp [World.load, created]

/-- C1: for every plain (non-nil, non-chain) error `e`, `Wrap(e)` returns a chain at
an address that was not allocated before, whose `Errors()` is exactly `[e]`, whose
frame cache is nil, and the call records exactly one `getStackPC` call, with
`skip = 2`; the objects allocated before, the toggles and the log are unchanged. -/
theorem Wrap_plain_new_chain (rt : Runtime) (callers : List Nat) (w : World) (msg : String) :
    ∃ st w1,
      Wrap rt callers w (some (.plain msg)) = some (some (.chain w.heap.length), w1) ∧
      w.load w.heap.length = none ∧
      Errors w1 w.heap.length = some [.plain msg] ∧
      w1.heap = w.heap ++ [{ underlying := [.plain msg], stack := st, frameCache := none }] ∧
      st = (getStackPC rt (rt.pcGetStackPC :: rt.pcWrapF :: rt.pcWrap :: callers) w 2).1 ∧
      w1.stackCaptures = w.stackCaptures ++ [2] ∧
      w1.IncludeStackInError = w.IncludeStackInError ∧
      w1.PrintToLog = w.PrintToLog ∧
      w1.logOutput = w.logOutput := by
  refine ⟨_, _, rfl, load_fresh w, ?_, rfl, rfl, rfl, rfl, rfl, rfl⟩
  simp [Errors, World.load, World.alloc, getStackPC]

/-- C2: for every plain error `e`, every format and arguments,
`Wrapf(e, format, args)` returns a chain at a fresh address whose `Errors()` is
exactly `[e, fmt.Errorf(format, args)]` in that order, and the call records exactly
one `getStackPC` call. -/
theorem Wrapf_plain_new_chain (rt : Runtime) (callers : List Nat) (w : World) (msg : String)
    (format : String) (a : List Arg) :
    ∃ st w1,
      Wrapf rt callers w (some (.plain msg)) format a
        = some (some (.chain w.heap.length), w1) ∧
      w.load w.heap.length = none ∧
      Errors w1 w.heap.length = some [.plain msg, fmtErrorf rt format a] ∧
      w1.heap = w.heap ++ [{ underlying := [.plain msg, fmtErrorf rt format a], stack := st,
                             frameCache := none }] ∧
      st = (getStackPC rt (rt.pcGetStackPC :: rt.pcWrapF :: rt.pcWrapf :: callers) w 2).1 ∧
      w1.stackCaptures = w.stackCaptures ++ [2] := by
  refine ⟨_, _, rfl, load_fresh w, ?_, rfl, rfl, rfl⟩
  simp [Errors, World.load, World.alloc, getStackPC]

/-- C3: for every existing chain `c` with causes `cs`, `Wrapf(c, format, args)`
returns the same pointer `c`; afterwards `c.Errors()` is `cs` followed by the one
new formatted error, the stack and frame cache of `c` are as before, every other
object is as before, and no `getStackPC` call is recorded. -/
theorem Wrapf_chain_appends (rt : Runtime) (callers : List Nat) (w : World) (c : Nat)
    (obj : appError) (format : String) (a : List Arg) (hc : w.load c = some obj) :
    ∃ w1,
      Wrapf rt callers w (some (.chain c)) format a = some (some (.chain c), w1) ∧
      Errors w1 c = some (obj.underlying ++ [fmtErrorf rt format a]) ∧
      w1.load c = some { obj with underlying := obj.underlying ++ [fmtErrorf rt format a] } ∧
      w1.heap.length = w.heap.length ∧
      (∀ q, q ≠ c → w1.load q = w.load q) ∧
      w1.stackCaptures = w.stackCaptures ∧
      w1.IncludeStackInError = w.IncludeStackInError ∧
      w1.PrintToLog = w.PrintToLog ∧
      w1.logOutput = w.logOutput := by
  refine ⟨w.store c { obj with underlying := obj.underlying ++ [fmtErrorf rt format a] },
    ?_, ?_, load_store_same w c obj _ hc, ?_, ?_, rfl, rfl, rfl, rfl⟩
  · simp [Wrapf, wrapF, hc]
  · simp [Errors, load_store_same w c obj _ hc]
  · simp [World.store]
  · intro q hq
    exact load_store_other w c q _ hq

/-- Witness of C3 on the chain of `sampleWorld`. -/
theorem Wrapf_chain_appends_witness :
    sampleWorld.load 0
        = some { underlying := [.plain "test"], stack := [100, 101, 102], frameCache := none } ∧
    ∃ w1,
      Wrapf sampleRuntime sampleCallers sampleWorld (some (.chain 0)) "err %v %v %v"
          [.int 1, .int 2, .int 4] = some (some (.chain 0), w1) ∧
      Errors w1 0 = some [.plain "test", .plain "err 1 2 4"] ∧
      w1.load 0 = some { underlying := [.plain "test", .plain "err 1 2 4"],
                         stack := [100, 101, 102], frameCache := none } ∧
      w1.heap.length = sampleWorld.heap.length ∧
      (∀ q, q ≠ 0 → w1.load q = sampleWorld.load q) ∧
      w1.stackCaptures = sampleWorld.stackCaptures ∧
      w1.IncludeStackInError = sampleWorld.IncludeStackInError ∧
      w1.PrintToLog = sampleWorld.PrintToLog ∧
      w1.logOutput = sampleWorld.logOutput :=
  ⟨rfl, Wrapf_chain_appends sampleRuntime sampleCallers sampleWorld 0 _ "err %v %v %v"
    [.int 1, .int 2, .int 4] rfl⟩

/-! ## Wrapping an existing chain -/

theorem getStack_congr (rt : Runtime) (w w1 : World) (p : Nat) (o o1 : appError)
    (h : w.load p = some o) (h1 : w1.load p = some o1)
    (hs : o1.stack = o.stack) (hf : o1.frameCache = o.frameCache) :
    (getStack rt w1 p).map Prod.fst = (getStack rt w p).map Prod.fst := by
  simp only [getStack, h, h1]
  rw [hs, hf]
  cases o.frameCache with
  | some cache => rfl
  | none =>
    cases getStackLoop rt o.stack [] with
    | none => rfl
    | some cache => rfl

theorem Stack_map_fst (rt : Runtime) (w : World) (p : Nat) :
    (Stack rt w p).map Prod.fst
      = ((getStack rt w p).map Prod.fst).map (fun fs => StackLoop fs "") := by
  unfold Stack
  cases getStack rt w p with
  | none => rfl
  | some r => rfl

/-- C4: `Wrap` is the identity on chains: `Wrap(c)` returns the pointer `c` and
leaves the whole state (causes, raw stack, frame cache of every chain, the capture
trace) unchanged; hence for every non-nil `e`, `Wrap(e)` is a chain `r` and
`Wrap(r)` returns `r` again without changing the state. -/
theorem Wrap_chain_identity (rt : Runtime) (callers : List Nat) (w : World) (c : Nat)
    (e : GoError) :
    Wrap rt callers w (some (.chain c)) = some (some (.chain c), w) ∧
    ∃ r w1, Wrap rt callers w (some e) = some (some (.chain r), w1) ∧
      ∀ callers2, Wrap rt callers2 w1 (some (.chain r)) = some (some (.chain r), w1) := by
  refine ⟨rfl, ?_⟩
  cases e with
  | plain msg => exact ⟨_, _, rfl, fun _ => rfl⟩
  | chain q => exact ⟨q, w, rfl, fun _ => rfl⟩

/-- C5, as amended: `Wrap(e0)` returns without a fault for every `error` value
`e0`, the result is nil if and only if `e0` is nil, and on nil input the state is
unchanged.  For every `e` that is nil, a plain error or a pointer to an allocated
chain (not a nil `*appError` held in a non-nil interface), `Wrap(e)` and
`Wrapf(e, format, args)` return without a fault; the result is nil if and only if
`e` is nil; on nil input the state is unchanged (no chain created, no stack
captured); on non-nil input the result is a pointer to an allocated chain. -/
theorem Wrap_Wrapf_nil_iff (rt : Runtime) (callers : List Nat) (w : World)
    (e0 e : Option GoError) (format : String) (a : List Arg) (hlive : live w e = true) :
    (∃ r w1, Wrap rt callers w e0 = some (r, w1) ∧ (r = none ↔ e0 = none) ∧
      (e0 = none → w1 = w)) ∧
    (∃ r w1, Wrap rt callers w e = some (r, w1) ∧ (r = none ↔ e = none) ∧
      (e = none → w1 = w) ∧
      (e ≠ none → ∃ p obj, r = some (.chain p) ∧ w1.load p = some obj)) ∧
    (∃ r w1, Wrapf rt callers w e format a = some (r, w1) ∧ (r = none ↔ e = none) ∧
      (e = none → w1 = w) ∧
      (e ≠ none → ∃ p obj, r = some (.chain p) ∧ w1.load p = some obj)) := by
  constructor
  · match e0 with
    | none => exact ⟨none, w, rfl, Iff.rfl, fun _ => rfl⟩
    | some (.plain msg) => exact ⟨_, _, wrapF_plain rt _ w msg [], by simp, by simp⟩
    | some (.chain c) => exact ⟨some (.chain c), w, rfl, by simp, by simp⟩
  match e, hlive with
  | none, _ =>
    exact ⟨⟨none, w, rfl, Iff.rfl, fun _ => rfl, fun h => absurd rfl h⟩,
           ⟨none, w, rfl, Iff.rfl, fun _ => rfl, fun h => absurd rfl h⟩⟩
  | some (.plain msg), _ =>
    constructor
    · exact ⟨_, _, wrapF_plain rt _ w msg [], by simp, by simp,
        fun _ => ⟨_, _, rfl, load_created rt _ w _⟩⟩
    · exact ⟨_, _, wrapF_plain rt _ w msg [fmtErrorf rt format a], by simp, by simp,
        fun _ => ⟨_, _, rfl, load_created rt _ w _⟩⟩
  | some (.chain c), hl =>
    have hc : ∃ obj, w.load c = some obj := by
      simpa [live, Option.isSome_iff_exists] using hl
    obtain ⟨obj, hobj⟩ := hc
    constructor
    · exact ⟨_, w, rfl, by simp, by simp, fun _ => ⟨c, obj, rfl, hobj⟩⟩
    · refine ⟨some (.chain c),
        w.store c { obj with underlying := obj.underlying ++ [fmtErrorf rt format a] },
        by simp [Wrapf, wrapF, hobj], by simp, by simp,
        fun _ => ⟨c, _, rfl, load_store_same w c obj _ hobj⟩⟩

/-- Witness of C5 as amended: `Wrap` on a pointer to no allocated object, and
`Wrap` and `Wrapf` on the chain of `sampleWorld`. -/
theorem Wrap_Wrapf_nil_iff_witness :
    live sampleWorld (some (.chain 0)) = true ∧
    ((∃ r w1, Wrap sampleRuntime sampleCallers sampleWorld (some (.chain 7)) = some (r, w1) ∧
      (r = none ↔ some (GoError.chain 7) = none) ∧
      (some (GoError.chain 7) = none → w1 = sampleWorld)) ∧
    (∃ r w1, Wrap sampleRuntime sampleCallers sampleWorld (some (.chain 0)) = some (r, w1) ∧
      (r = none ↔ some (GoError.chain 0) = none) ∧
      (some (GoError.chain 0) = none → w1 = sampleWorld) ∧
      (some (GoError.chain 0) ≠ none → ∃ p obj, r = some (.chain p) ∧ w1.load p = some obj)) ∧
    (∃ r w1, Wrapf sampleRuntime sampleCallers sampleWorld (some (.chain 0)) "ctx" []
        = some (r, w1) ∧
      (r = none ↔ some (GoError.chain 0) = none) ∧
      (some (GoError.chain 0) = none → w1 = sampleWorld) ∧
      (some (GoError.chain 0) ≠ none →
        ∃ p obj, r = some (.chain p) ∧ w1.load p = some obj))) :=
  ⟨rfl, Wrap_Wrapf_nil_iff sampleRuntime sampleCallers sampleWorld (some (.chain 7))
    (some (.chain 0)) "ctx" [] rfl⟩

/-- C5 as stated fails on a nil `*appError` held in a non-nil `error` interface
(here the pointer `0` while no chain is allocated): the input is not nil, yet
`Wrapf` faults on `aerr.underlying` instead of returning a chain, and `Wrap`
returns the same non-nil value, which points to no chain. -/
theorem Wrapf_nil_pointer_faults :
    World.init.load 0 = none ∧
    some (GoError.chain 0) ≠ none ∧
    Wrapf sampleRuntime sampleCallers World.init (some (.chain 0)) "ctx" [] = none ∧
    Wrap sampleRuntime sampleCallers World.init (some (.chain 0))
      = some (some (.chain 0), World.init) ∧
    ¬ (∃ r w1, Wrapf sampleRuntime sampleCallers World.init (some (.chain 0)) "ctx" []
        = some (r, w1) ∧ (r = none ↔ some (GoError.chain 0) = none)) ∧
    ¬ (∃ r w1 p obj, Wrap sampleRuntime sampleCallers World.init (some (.chain 0))
        = some (r, w1) ∧ r = some (.chain p) ∧ w1.load p = some obj) := by
  have hW : Wrapf sampleRuntime sampleCallers World.init (some (.chain 0)) "ctx" [] = none := rfl
  have hR : Wrap sampleRuntime sampleCallers World.init (some (.chain 0))
      = some (some (.chain 0), World.init) := rfl
  refine ⟨rfl, by simp, hW, hR, ?_, ?_⟩
  · rintro ⟨r, w1, h, _⟩
    rw [hW] at h
    cases h
  · rintro ⟨r, w1, p, obj, h, hr, hl⟩
    rw [hR] at h
    simp only [Option.some.injEq, Prod.mk.injEq] at h
    obtain ⟨h1, h2⟩ := h
    subst h1 h2
    simp only [Option.some.injEq, GoError.chain.injEq] at hr
    subst hr
    simp [World.load, World.init] at hl

/-- C6: wrapping an existing chain `c` again, with `Wrap` or with `Wrapf`, never
re-captures the stack: both return `c`, record no `getStackPC` call, leave the
fields `stack` and `frameCache` of `c` as they were, and so the resolved frames
(hence their count and the first frame) and the `Stack()` string are the same
after the rewrap as before it. -/
theorem rewrap_keeps_stack (rt : Runtime) (callers : List Nat) (w : World) (c : Nat)
    (obj : appError) (format : String) (a : List Arg) (hc : w.load c = some obj) :
    ∃ w1 w2 obj1 obj2,
      Wrap rt callers w (some (.chain c)) = some (some (.chain c), w1) ∧
      Wrapf rt callers w (some (.chain c)) format a = some (some (.chain c), w2) ∧
      w1.load c = some obj1 ∧ w2.load c = some obj2 ∧
      obj1.stack = obj.stack ∧ obj2.stack = obj.stack ∧
      obj1.frameCache = obj.frameCache ∧ obj2.frameCache = obj.frameCache ∧
      w1.stackCaptures = w.stackCaptures ∧ w2.stackCaptures = w.stackCaptures ∧
      (getStack rt w1 c).map Prod.fst = (getStack rt w c).map Prod.fst ∧
      (getStack rt w2 c).map Prod.fst = (getStack rt w c).map Prod.fst ∧
      (getStack rt w2 c).map (fun r => (r.1.length, r.1.head?))
        = (getStack rt w c).map (fun r => (r.1.length, r.1.head?)) ∧
      (Stack rt w1 c).map Prod.fst = (Stack rt w c).map Prod.fst ∧
      (Stack rt w2 c).map Prod.fst = (Stack rt w c).map Prod.fst := by
  have h2 : (w.store c { obj with underlying := obj.underlying ++ [fmtErrorf rt format a] }).load c
      = some { obj with underlying := obj.underlying ++ [fmtErrorf rt format a] } :=
    load_store_same w c obj _ hc
  have hg := getStack_congr rt w _ c obj _ hc h2 rfl rfl
  refine ⟨w, _, obj, _, rfl, by simp [Wrapf, wrapF, hc], hc, h2, rfl, rfl, rfl, rfl, rfl, rfl,
    rfl, hg, ?_, rfl, ?_⟩
  · have := congrArg (Option.map (fun fs : List stackFrame => (fs.length, fs.head?))) hg
    simpa [Option.map_map, Function.comp_def] using this
  · rw [Stack_map_fst, Stack_map_fst, hg]

/-- Witness of C6 on the chain of `sampleWorld`. -/
theorem rewrap_keeps_stack_witness :
    sampleWorld.load 0
        = some { underlying := [.plain "test"], stack := [100, 101, 102], frameCache := none } ∧
    ∃ w1 w2 obj1 obj2,
      Wrap sampleRuntime sampleCallers sampleWorld (some (.chain 0))
        = some (some (.chain 0), w1) ∧
      Wrapf sampleRuntime sampleCallers sampleWorld (some (.chain 0)) "ctx" []
        = some (some (.chain 0), w2) ∧
      w1.load 0 = some obj1 ∧ w2.load 0 = some obj2 ∧
      obj1.stack = [100, 101, 102] ∧ obj2.stack = [100, 101, 102] ∧
      obj1.frameCache = none ∧ obj2.frameCache = none ∧
      w1.stackCaptures = sampleWorld.stackCaptures ∧
      w2.stackCaptures = sampleWorld.stackCaptures ∧
      (getStack sampleRuntime w1 0).map Prod.fst
        = (getStack sampleRuntime sampleWorld 0).map Prod.fst ∧
      (getStack sampleRuntime w2 0).map Prod.fst
        = (getStack sampleRuntime sampleWorld 0).map Prod.fst ∧
      (getStack sampleRuntime w2 0).map (fun r => (r.1.length, r.1.head?))
        = (getStack sampleRuntime sampleWorld 0).map (fun r => (r.1.length, r.1.head?)) ∧
      (Stack sampleRuntime w1 0).map Prod.fst = (Stack sampleRuntime sampleWorld 0).map Prod.fst ∧
      (Stack sampleRuntime w2 0).map Prod.fst
        = (Stack sampleRuntime sampleWorld 0).map Prod.fst :=
  ⟨rfl, rewrap_keeps_stack sampleRuntime sampleCallers sampleWorld 0 _ "ctx" [] rfl⟩

/-! ## Joining with a separator -/

theorem joinLoop_of_pos (sep : String) (xs : List String) (buf : String)
    (h : 0 < buf.length) : joinLoop sep xs buf = String.intercalate.go buf sep xs := by
  induction xs generalizing buf with
  | nil => simp [joinLoop, String.intercalate.go]
  | cons x rest ih =>
    have hpos : 0 < ((buf ++ sep) ++ x).length := by
      simp only [String.length_append]
      omega
    simp only [joinLoop, String.intercalate.go, gt_iff_lt, h, if_true]
    exact ih _ hpos

theorem joinLoop_eq_intercalate (sep : String) (xs : List String)
    (h : ∀ x, xs.head? = some x → 0 < x.length) :
    joinLoop sep xs "" = sep.intercalate xs := by
  cases xs with
  | nil => rfl
  | cons x rest =>
    have hx : 0 < x.length := h x rfl
    have h0 : ¬ (("" : String).length > 0) := by decide
    simp only [joinLoop, String.intercalate, h0, if_false]
    have he : ("" : String) ++ x = x := by
      apply String.ext
      simp
    rw [he]
    exact joinLoop_of_pos sep rest x hx

theorem StackLoop_eq_joinLoop (fs : List stackFrame) (buf : String) :
    StackLoop fs buf = joinLoop StackSeparator (fs.map frameText) buf := by
  induction fs generalizing buf with
  | nil => rfl
  | cons f rest ih => simp only [StackLoop, List.map, joinLoop, ih]

theorem frameText_length_pos (f : stackFrame) : 0 < (frameText f).length := by
  have h : (":" : String).length = 1 := by decide
  simp only [frameText, String.length_append, h]
  omega

theorem StackLoop_eq_intercalate (fs : List stackFrame) :
    StackLoop fs "" = StackSeparator.intercalate (fs.map frameText) := by
  rw [StackLoop_eq_joinLoop]
  apply joinLoop_eq_intercalate
  intro x hx
  cases fs with
  | nil => simp at hx
  | cons f rest =>
    simp only [List.map, List.head?_cons, Option.some.injEq] at hx
    rw [← hx]
    exact frameText_length_pos f

/-! ## The message of a chain -/

theorem GoError.Error_plain (rt : Runtime) (fuel : Nat) (w : World) (m : String) :
    GoError.Error rt fuel w (.plain m) = some (m, w) := by
  cases fuel <;> rfl

theorem errorMsgsLoop_plain (errorOf : World → GoError → Option (String × World))
    (hd : ∀ w m, errorOf w (.plain m) = some (m, w)) (es : List GoError) (buf : String)
    (w : World) (hp : allPlain es = true) :
    errorMsgsLoop errorOf es buf w = some (joinLoop ": " (es.map GoError.msg) buf, w) := by
  induction es generalizing buf with
  | nil => rfl
  | cons e rest ih =>
    cases e with
    | chain q => simp [allPlain] at hp
    | plain m =>
      have hr : allPlain rest = true := by
        simp only [allPlain, List.all_cons, Bool.and_eq_true] at hp
        exact hp.2
      simp only [errorMsgsLoop, hd, List.map, joinLoop, GoError.msg]
      exact ih _ hr

theorem allPlain_reverse (es : List GoError) (h : allPlain es = true) :
    allPlain es.reverse = true := by
  simp only [allPlain, List.all_eq_true, List.mem_reverse] at h ⊢
  exact h

theorem errorMsgs_plain (errorOf : World → GoError → Option (String × World))
    (hd : ∀ w m, errorOf w (.plain m) = some (m, w)) (w : World) (p : Nat) (obj : appError)
    (hc : w.load p = some obj) (hp : allPlain obj.underlying = true) :
    errorMsgs errorOf w p
      = some (joinLoop ": " (obj.underlying.reverse.map GoError.msg) "", w) := by
  simp only [errorMsgs, hc]
  exact errorMsgsLoop_plain errorOf hd _ _ w (allPlain_reverse _ hp)

/-- When the most recent cause has a non-empty message, the message of a chain of
plain causes is the join of the messages, most recent first, by `": "`. -/
theorem errorMsgs_eq_intercalate (rt : Runtime) (fuel : Nat) (w : World) (p : Nat)
    (obj : appError) (hc : w.load p = some obj) (hp : allPlain obj.underlying = true)
    (hne : ∀ e, obj.underlying.reverse.head? = some e → 0 < e.msg.length) :
    errorMsgs (GoError.Error rt fuel) w p
      = some (": ".intercalate (obj.underlying.reverse.map GoError.msg), w) := by
  rw [errorMsgs_plain _ (GoError.Error_plain rt fuel) w p obj hc hp]
  congr 2
  apply joinLoop_eq_intercalate
  intro x hx
  cases hrev : obj.underlying.reverse with
  | nil => simp [hrev] at hx
  | cons e rest =>
    simp only [hrev, List.map, List.head?_cons, Option.some.injEq] at hx
    rw [← hx]
    exact hne e (by simp [hrev])

/-- C7, evaluated at `Wrapf(errors.New("test"), "")`: the formatted error has the
empty message, the chain has the causes `[test, ""]`, and `errorMsgs()` returns
`"test"`, which is not the join `"" + ": " + "test"`; with the root message empty
and the context `"ctx"`, `errorMsgs()` returns `"ctx: "`, the separator kept. -/
theorem errorMsgs_empty_context :
    (∃ w1,
      Wrapf sampleRuntime sampleCallers World.init (some (.plain "test")) "" []
        = some (some (.chain 0), w1) ∧
      Errors w1 0 = some [.plain "test", fmtErrorf sampleRuntime "" []] ∧
      (fmtErrorf sampleRuntime "" []).msg = "" ∧
      errorMsgs (GoError.Error sampleRuntime 0) w1 0 = some ("test", w1) ∧
      ": ".intercalate ["", "test"] = ": test" ∧
      "test" ≠ (fmtErrorf sampleRuntime "" []).msg ++ ": " ++ "test") ∧
    (∃ w2,
      Wrapf sampleRuntime sampleCallers World.init (some (.plain "")) "ctx" []
        = some (some (.chain 0), w2) ∧
      errorMsgs (GoError.Error sampleRuntime 0) w2 0 = some ("ctx: ", w2)) := by
  refine ⟨⟨_, rfl, rfl, rfl, rfl, rfl, by decide⟩, ⟨_, rfl, rfl⟩⟩

/-! ## The string of a chain -/

theorem getStack_fst (rt : Runtime) (w : World) (p : Nat) (obj : appError)
    (hc : w.load p = some obj) : (getStack rt w p).map Prod.fst = resolved rt obj := by
  simp only [getStack, hc, resolved]
  cases obj.frameCache with
  | some cache => rfl
  | none =>
    cases getStackLoop rt obj.stack [] with
    | none => rfl
    | some cache => rfl

theorem sameChain_getStack (rt : Runtime) (p : Nat) (obj : appError) (incl : Bool) (w : World)
    (fs : List stackFrame) (hw : sameChain rt p obj incl w) (hr : resolved rt obj = some fs) :
    ∃ w1, getStack rt w p = some (fs, w1) ∧ sameChain rt p obj incl w1 := by
  obtain ⟨o, ho, hu, hres, hi⟩ := hw
  rw [hr] at hres
  cases hcache : o.frameCache with
  | some cache =>
    have hfs : cache = fs := by simpa [resolved, hcache] using hres
    refine ⟨w, ?_, o, ho, hu, by rw [hr]; exact hres, hi⟩
    simp [getStack, ho, hcache, hfs]
  | none =>
    have hl : getStackLoop rt o.stack [] = some fs := by simpa [resolved, hcache] using hres
    refine ⟨w.store p { o with frameCache := some fs }, ?_, { o with frameCache := some fs },
      load_store_same w p o _ ho, hu, by rw [hr]; rfl, hi⟩
    simp [getStack, ho, hcache, hl]

theorem sameChain_errorMsgs (rt : Runtime) (fuel : Nat) (p : Nat) (obj : appError) (incl : Bool)
    (w : World) (hw : sameChain rt p obj incl w) (hp : allPlain obj.underlying = true) :
    errorMsgs (GoError.Error rt fuel) w p
      = some (joinLoop ": " (obj.underlying.reverse.map GoError.msg) "", w) := by
  obtain ⟨o, ho, hu, _, _⟩ := hw
  rw [← hu] at hp ⊢
  exact errorMsgs_plain _ (GoError.Error_plain rt fuel) w p o ho hp

theorem sameChain_Stack (rt : Runtime) (p : Nat) (obj : appError) (incl : Bool) (w : World)
    (fs : List stackFrame) (hw : sameChain rt p obj incl w) (hr : resolved rt obj = some fs) :
    ∃ w1, Stack rt w p = some (StackLoop fs "", w1) ∧ sameChain rt p obj incl w1 := by
  obtain ⟨w1, hg, hw1⟩ := sameChain_getStack rt p obj incl w fs hw hr
  exact ⟨w1, by simp [Stack, hg], hw1⟩

theorem sameChain_PrintTolog (rt : Runtime) (fuel : Nat) (p : Nat) (obj : appError)
    (incl : Bool) (w : World) (fs : List stackFrame) (hw : sameChain rt p obj incl w)
    (hp : allPlain obj.underlying = true) (hr : resolved rt obj = some fs) :
    ∃ w1, PrintTolog (GoError.Error rt fuel) rt w p = some w1 ∧ sameChain rt p obj incl w1 := by
  obtain ⟨w1, hg, o, ho, hu, hres, hi⟩ := sameChain_getStack rt p obj incl w fs hw hr
  refine ⟨{ w1 with logOutput := w1.logOutput ++
      [PrintTologLoop fs (joinLoop ": " (obj.underlying.reverse.map GoError.msg) "" ++ "\n")] },
    ?_, o, ho, hu, hres, hi⟩
  simp [PrintTolog, sameChain_errorMsgs rt fuel p obj incl w hw hp, hg]

theorem sameChain_Error (rt : Runtime) (fuel : Nat) (p : Nat) (obj : appError) (incl : Bool)
    (w : World) (fs : List stackFrame) (hw : sameChain rt p obj incl w)
    (hp : allPlain obj.underlying = true) (hr : resolved rt obj = some fs) :
    ∃ w3, appErrorError (GoError.Error rt fuel) rt w p
      = some (if incl then joinLoop ": " (obj.underlying.reverse.map GoError.msg) ""
                ++ StackSeparator ++ StackLoop fs ""
              else joinLoop ": " (obj.underlying.reverse.map GoError.msg) "", w3) := by
  have hlog : ∃ w1, (if w.PrintToLog then PrintTolog (GoError.Error rt fuel) rt w p else some w)
      = some w1 ∧ sameChain rt p obj incl w1 := by
    cases w.PrintToLog with
    | false => exact ⟨w, rfl, hw⟩
    | true => simpa using sameChain_PrintTolog rt fuel p obj incl w fs hw hp hr
  obtain ⟨w1, h1, hw1⟩ := hlog
  have hi : w1.IncludeStackInError = incl := by
    obtain ⟨_, _, _, _, hi⟩ := hw1
    exact hi
  have hm := sameChain_errorMsgs rt fuel p obj incl w1 hw1 hp
  obtain ⟨w3, hs, _⟩ := sameChain_Stack rt p obj incl w1 fs hw1 hr
  cases incl with
  | false => exact ⟨w1, by simp [appErrorError, h1, hi, hm]⟩
  | true => exact ⟨w3, by simp [appErrorError, h1, hi, hm, hs]⟩

/-- C8: for a chain of plain causes whose stack resolves (`Stack()` returns `st`),
`errorMsgs()` returns a string `msgs` without changing the state, and `Error()`
returns `msgs ++ StackSeparator ++ st` when `IncludeStackInError` is true and
exactly `msgs` when it is false; the returned string starts with `msgs`; and the
same string is returned whatever the value of `PrintToLog`. -/
theorem Error_string (rt : Runtime) (fuel : Nat) (w : World) (p : Nat) (obj : appError)
    (st : String) (ws : World) (hc : w.load p = some obj)
    (hp : allPlain obj.underlying = true) (hst : Stack rt w p = some (st, ws)) :
    ∃ msgs, errorMsgs (GoError.Error rt fuel) w p = some (msgs, w) ∧
      (∃ w3, appErrorError (GoError.Error rt fuel) rt w p
        = some (if w.IncludeStackInError then msgs ++ StackSeparator ++ st else msgs, w3)) ∧
      (∃ t, (if w.IncludeStackInError then msgs ++ StackSeparator ++ st else msgs) = msgs ++ t) ∧
      (∀ b, ∃ w3, appErrorError (GoError.Error rt fuel) rt { w with PrintToLog := b } p
        = some (if w.IncludeStackInError then msgs ++ StackSeparator ++ st else msgs, w3)) := by
  have hfs : ∃ fs, resolved rt obj = some fs ∧ st = StackLoop fs "" := by
    have h1 := getStack_fst rt w p obj hc
    have h2 := Stack_map_fst rt w p
    rw [hst, h1] at h2
    cases hres : resolved rt obj with
    | none => simp [hres] at h2
    | some fs =>
      refine ⟨fs, rfl, ?_⟩
      simpa [hres] using h2
  obtain ⟨fs, hr, hst1⟩ := hfs
  have hw : sameChain rt p obj w.IncludeStackInError w := ⟨obj, hc, rfl, rfl, rfl⟩
  refine ⟨_, sameChain_errorMsgs rt fuel p obj _ w hw hp, ?_, ?_, ?_⟩
  · rw [hst1]
    exact sameChain_Error rt fuel p obj _ w fs hw hp hr
  · cases w.IncludeStackInError with
    | false => exact ⟨"", by simp⟩
    | true => exact ⟨StackSeparator ++ st, by simp [String.append_assoc]⟩
  · intro b
    rw [hst1]
    exact sameChain_Error rt fuel p obj _ _ fs ⟨obj, hc, rfl, rfl, rfl⟩ hp hr

/-- Witness of C8 on the chain of `sampleWorld`. -/
theorem Error_string_witness :
    sampleWorld.load 0
        = some { underlying := [.plain "test"], stack := [100, 101, 102], frameCache := none } ∧
    allPlain [.plain "test"] = true ∧
    Stack sampleRuntime sampleWorld 0 = some (sampleStack, sampleWorldResolved) ∧
    ∃ msgs, errorMsgs (GoError.Error sampleRuntime 0) sampleWorld 0 = some (msgs, sampleWorld) ∧
      (∃ w3, appErrorError (GoError.Error sampleRuntime 0) sampleRuntime sampleWorld 0
        = some (if sampleWorld.IncludeStackInError then msgs ++ StackSeparator ++ sampleStack
                else msgs, w3)) ∧
      (∃ t, (if sampleWorld.IncludeStackInError then msgs ++ StackSeparator ++ sampleStack
             else msgs) = msgs ++ t) ∧
      (∀ b, ∃ w3, appErrorError (GoError.Error sampleRuntime 0) sampleRuntime
          { sampleWorld with PrintToLog := b } 0
        = some (if sampleWorld.IncludeStackInError then msgs ++ StackSeparator ++ sampleStack
                else msgs, w3)) :=
  ⟨rfl, rfl, rfl,
   Error_string sampleRuntime 0 sampleWorld 0 _ sampleStack sampleWorldResolved rfl rfl rfl⟩

/-- C9: for every format and arguments, `Errorf(format, args)` returns a non-nil
chain at an address that was not allocated before, whose `Errors()` is exactly
`[fmt.Errorf(format, args)]`; exactly one `getStackPC` call is recorded, with
`skip = 2`; every object allocated before is unchanged. -/
theorem Errorf_new_chain (rt : Runtime) (callers : List Nat) (w : World) (format : String)
    (a : List Arg) :
    ∃ st w1,
      Errorf rt callers w format a = some (some (.chain w.heap.length), w1) ∧
      w.load w.heap.length = none ∧
      Errors w1 w.heap.length = some [fmtErrorf rt format a] ∧
      w1.heap = w.heap ++ [{ underlying := [fmtErrorf rt format a], stack := st,
                             frameCache := none }] ∧
      st = (getStackPC rt (rt.pcGetStackPC :: rt.pcWrapF :: rt.pcErrorf :: callers) w 2).1 ∧
      w1.stackCaptures = w.stackCaptures ++ [2] := by
  refine ⟨_, _, rfl, load_fresh w, ?_, rfl, rfl, rfl⟩
  simp [Errors, World.load, World.alloc, getStackPC, fmtErrorf]

/-- C10: when `getStack()` returns the frames `fs`, `Stack()` returns the join by
`StackSeparator` (`"; "`) of the renderings `<file>:<line> <funcName>: <lineContents>`
of `fs`, in the order of `fs`; for the empty frame list it returns the empty
string. -/
theorem Stack_eq_intercalate (rt : Runtime) (w : World) (p : Nat) (fs : List stackFrame)
    (w1 : World) (h : getStack rt w p = some (fs, w1)) :
    Stack rt w p = some (StackSeparator.intercalate (fs.map frameText), w1) ∧
    (fs = [] → Stack rt w p = some ("", w1)) ∧
    StackSeparator = "; " ∧
    ∀ f ∈ fs, frameText f
      = f.file ++ ":" ++ toString f.line ++ " " ++ f.funcName ++ ": " ++ f.lineContents := by
  have hs : Stack rt w p = some (StackLoop fs "", w1) := by simp [Stack, h]
  refine ⟨?_, ?_, rfl, fun _ _ => rfl⟩
  · rw [hs, StackLoop_eq_intercalate]
  · intro hnil
    rw [hs, hnil]
    rfl

/-- Witness of C10 on the chain of `sampleWorld`. -/
theorem Stack_eq_intercalate_witness :
    getStack sampleRuntime sampleWorld 0 = some (sampleFrames, sampleWorldResolved) ∧
    (Stack sampleRuntime sampleWorld 0
        = some (StackSeparator.intercalate (sampleFrames.map frameText), sampleWorldResolved) ∧
     (sampleFrames = [] → Stack sampleRuntime sampleWorld 0 = some ("", sampleWorldResolved)) ∧
     StackSeparator = "; " ∧
     ∀ f ∈ sampleFrames, frameText f
       = f.file ++ ":" ++ toString f.line ++ " " ++ f.funcName ++ ": " ++ f.lineContents) :=
  ⟨rfl, Stack_eq_intercalate sampleRuntime sampleWorld 0 sampleFrames sampleWorldResolved rfl⟩

/-! ## Capturing the stack -/

theorem getStackPCLoop_eq (callStack : List Nat) (skip : Nat) (pc : List Nat) :
    getStackPCLoop callStack skip pc = pc ++ callStack.drop skip := by
  generalize hn : callStack.length - skip = n
  induction n using Nat.strong_induction_on generalizing skip pc with
  | _ n ih =>
    rw [getStackPCLoop]
    simp only [runtimeCallers, bufSize]
    split
    · rename_i h20
      have hlen : 20 ≤ callStack.length - skip := by
        simp only [List.length_take, List.length_drop] at h20
        omega
      rw [h20, ih (callStack.length - (skip + 20)) (by omega) (skip + 20) _ rfl]
      rw [List.append_assoc]
      congr 1
      rw [← List.drop_drop]
      exact List.take_append_drop 20 (callStack.drop skip)
    · rename_i h20
      have hlen : (callStack.drop skip).length < 20 := by
        simp only [List.length_take, List.length_drop] at h20 ⊢
        omega
      rw [List.take_of_length_le (Nat.le_of_lt hlen)]

/-- C12: with `runtime.Callers(skip, buf)` copying the first `min(20, remaining)`
entries after `skip`, the loop of `getStackPC` (a total function: it terminates
for every finite stack) returns the whole stack after `skip`, in order, nothing
lost or repeated, whatever the depth; `getStackPC(skip)` returns the stack at
`runtime.Callers` with its first `skip + 2` entries dropped, and so many
addresses as remain. -/
theorem getStackPC_whole_stack (rt : Runtime) (callStack : List Nat) (w : World) (skip : Nat) :
    (∀ (cs : List Nat) (sk : Nat), getStackPCLoop cs sk [] = cs.drop sk) ∧
    (getStackPC rt callStack w skip).1 = (rt.pcCallers :: callStack).drop (skip + 2) ∧
    (getStackPC rt callStack w skip).1.length = callStack.length + 1 - (skip + 2) := by
  have h1 : ∀ (cs : List Nat) (sk : Nat), getStackPCLoop cs sk [] = cs.drop sk := by
    intro cs sk
    rw [getStackPCLoop_eq, List.nil_append]
  refine ⟨h1, ?_, ?_⟩
  · simp only [getStackPC, h1]
  · simp only [getStackPC, h1, List.length_drop, List.length_cons]

theorem created_stack (rt : Runtime) (callStack : List Nat) (w : World) (errs : List GoError)
    (pcPublic : Nat) (callers : List Nat) (h : callStack = rt.pcWrapF :: pcPublic :: callers) :
    (created rt callStack w errs).load w.heap.length
      = some { underlying := errs, stack := callers, frameCache := none } := by
  rw [load_created, getStackPCLoop_eq, h]
  rfl

/-- C13: with the stack at the capture primitive being `[runtime.Callers,
getStackPC, wrapF, public function, caller, ...]`, `getStackPC(2)` omits exactly
the four innermost entries, and the raw stack stored in the chain created by
`Wrap`, by `Wrapf` and by `Errorf` is the stack of the caller, beginning at the
caller of the public function. -/
theorem new_chain_stack_is_callers (rt : Runtime) (callers : List Nat) (w : World)
    (msg format : String) (a : List Arg) :
    (∀ pcPublic, (getStackPC rt (rt.pcGetStackPC :: rt.pcWrapF :: pcPublic :: callers) w 2).1
      = callers) ∧
    (∃ w1, Wrap rt callers w (some (.plain msg)) = some (some (.chain w.heap.length), w1) ∧
      w1.load w.heap.length
        = some { underlying := [.plain msg], stack := callers, frameCache := none }) ∧
    (∃ w1, Wrapf rt callers w (some (.plain msg)) format a
        = some (some (.chain w.heap.length), w1) ∧
      w1.load w.heap.length
        = some { underlying := [.plain msg, fmtErrorf rt format a], stack := callers,
                 frameCache := none }) ∧
    (∃ w1, Errorf rt callers w format a = some (some (.chain w.heap.length), w1) ∧
      w1.load w.heap.length
        = some { underlying := [fmtErrorf rt format a], stack := callers,
                 frameCache := none }) := by
  refine ⟨?_, ⟨_, wrapF_plain rt _ w msg [], created_stack rt _ w _ rt.pcWrap callers rfl⟩,
    ⟨_, wrapF_plain rt _ w msg [fmtErrorf rt format a],
      created_stack rt _ w _ rt.pcWrapf callers rfl⟩,
    ⟨_, wrapF_plain rt _ w _ [], created_stack rt _ w _ rt.pcErrorf callers rfl⟩⟩
  intro pcPublic
  simp only [getStackPC, getStackPCLoop_eq]
  rfl

/-! ## Resolving the stack -/

/-- C16: when `getStack()` on a chain returns the frames `fs`, the chain's
`frameCache` holds `fs` afterwards as a non-nil value (also for `fs = []`), its
causes and raw stack are as before, and every later `getStack()` returns the same
`fs` and leaves the state unchanged, whatever the runtime would resolve then; hence
`Stack()` called again returns the same string. -/
theorem getStack_memoized (rt rt2 : Runtime) (w : World) (p : Nat) (fs : List stackFrame)
    (w1 : World) (h : getStack rt w p = some (fs, w1)) :
    (∃ obj obj1, w.load p = some obj ∧ w1.load p = some obj1 ∧
      obj1.frameCache = some fs ∧ obj1.underlying = obj.underlying ∧
      obj1.stack = obj.stack) ∧
    getStack rt2 w1 p = some (fs, w1) ∧
    Stack rt w p = some (StackLoop fs "", w1) ∧
    Stack rt2 w1 p = some (StackLoop fs "", w1) := by
  have key : (∃ obj obj1, w.load p = some obj ∧ w1.load p = some obj1 ∧
      obj1.frameCache = some fs ∧ obj1.underlying = obj.underlying ∧
      obj1.stack = obj.stack) := by
    cases hc : w.load p with
    | none => simp [getStack, hc] at h
    | some obj =>
      cases hcache : obj.frameCache with
      | some cache =>
        simp only [getStack, hc, hcache, Option.some.injEq, Prod.mk.injEq] at h
        obtain ⟨h1, h2⟩ := h
        subst h1 h2
        exact ⟨obj, obj, rfl, hc, hcache, rfl, rfl⟩
      | none =>
        cases hl : getStackLoop rt obj.stack [] with
        | none => simp [getStack, hc, hcache, hl] at h
        | some cache =>
          simp only [getStack, hc, hcache, hl, Option.some.injEq, Prod.mk.injEq] at h
          obtain ⟨h1, h2⟩ := h
          subst h1 h2
          exact ⟨obj, _, rfl, load_store_same w p obj _ hc, rfl, rfl, rfl⟩
  obtain ⟨obj, obj1, ho, ho1, hf, hu, hs⟩ := key
  have h2 : getStack rt2 w1 p = some (fs, w1) := by
    simp [getStack, ho1, hf]
  exact ⟨⟨obj, obj1, ho, ho1, hf, hu, hs⟩, h2, by simp [Stack, h], by simp [Stack, h2]⟩

/-- Witness of C16 on the chain of `sampleWorld`. -/
theorem getStack_memoized_witness :
    getStack sampleRuntime sampleWorld 0 = some (sampleFrames, sampleWorldResolved) ∧
    ((∃ obj obj1, sampleWorld.load 0 = some obj ∧ sampleWorldResolved.load 0 = some obj1 ∧
      obj1.frameCache = some sampleFrames ∧ obj1.underlying = obj.underlying ∧
      obj1.stack = obj.stack) ∧
    getStack sampleRuntime sampleWorldResolved 0 = some (sampleFrames, sampleWorldResolved) ∧
    Stack sampleRuntime sampleWorld 0 = some (StackLoop sampleFrames "", sampleWorldResolved) ∧
    Stack sampleRuntime sampleWorldResolved 0
      = some (StackLoop sampleFrames "", sampleWorldResolved)) :=
  ⟨rfl, getStack_memoized sampleRuntime sampleRuntime sampleWorld 0 sampleFrames
    sampleWorldResolved rfl⟩

theorem getStackLoop_spec (rt : Runtime) (stack : List Nat) (cache fs : List stackFrame) :
    getStackLoop rt stack cache = some fs ↔
      ∃ gs, fs = cache ++ gs ∧
        gs.map some
          = (stack.takeWhile
              (fun pc => !strings.Contains (rt.FuncName pc) "runtime.call64")).map
              (resolvePC rt) := by
  induction stack generalizing cache with
  | nil =>
    simp only [getStackLoop, Option.some.injEq, List.takeWhile_nil, List.map_nil,
      List.map_eq_nil_iff]
    constructor
    · intro h
      exact ⟨[], by simp [h], rfl⟩
    · rintro ⟨gs, h1, h2⟩
      simp [h1, h2]
  | cons pc rest ih =>
    cases hb : strings.Contains (rt.FuncName pc) "runtime.call64" with
    | true =>
      simp only [getStackLoop, skipPastRuntimeCall, hb, Bool.and_self, if_true,
        Option.some.injEq, List.takeWhile_cons, Bool.not_true, Bool.false_eq_true, if_false,
        List.map_nil, List.map_eq_nil_iff]
      constructor
      · intro h
        exact ⟨[], by simp [h], rfl⟩
      · rintro ⟨gs, h1, h2⟩
        simp [h1, h2]
    | false =>
      cases hf : frame rt (rt.FuncName pc) (rt.FileLine pc).1 (rt.FileLine pc).2 with
      | none =>
        simp only [getStackLoop, skipPastRuntimeCall, hb, Bool.and_false, Bool.false_eq_true,
          if_false, hf, List.takeWhile_cons, Bool.not_false, if_true, List.map_cons,
          resolvePC]
        constructor
        · intro h
          cases h
        · rintro ⟨gs, _, h2⟩
          cases gs with
          | nil => simp at h2
          | cons g gs1 => simp at h2
      | some f =>
        simp only [getStackLoop, skipPastRuntimeCall, hb, Bool.and_false, Bool.false_eq_true,
          if_false, hf, List.takeWhile_cons, Bool.not_false, if_true, List.map_cons,
          resolvePC, ih]
        constructor
        · rintro ⟨gs, h1, h2⟩
          exact ⟨f :: gs, by simp [h1], by simp [h2]⟩
        · rintro ⟨gs, h1, h2⟩
          cases gs with
          | nil => simp at h2
          | cons g gs1 =>
            simp only [List.map_cons, List.cons.injEq, Option.some.injEq] at h2
            exact ⟨gs1, by simp [h1, h2.1], h2.2⟩

/-- C19: for a chain whose frames are not cached yet, `getStack()` returns `fs`
exactly when `fs` is, in the same order, the resolution of every address of the
longest prefix of the raw stack in which no function name contains
`"runtime.call64"`; the boundary address and all after it are left out, and
without a boundary the prefix is the whole raw stack. -/
theorem getStack_truncates (rt : Runtime) (w : World) (p : Nat) (obj : appError)
    (fs : List stackFrame) (hc : w.load p = some obj) (hnil : obj.frameCache = none) :
    ((∃ w1, getStack rt w p = some (fs, w1)) ↔
      fs.map some
        = (obj.stack.takeWhile
            (fun pc => !strings.Contains (rt.FuncName pc) "runtime.call64")).map
            (resolvePC rt)) ∧
    ((∀ pc ∈ obj.stack, strings.Contains (rt.FuncName pc) "runtime.call64" = false) →
      obj.stack.takeWhile (fun pc => !strings.Contains (rt.FuncName pc) "runtime.call64")
        = obj.stack) ∧
    (∀ pre pc post, obj.stack = pre ++ pc :: post →
      (∀ q ∈ pre, strings.Contains (rt.FuncName q) "runtime.call64" = false) →
      strings.Contains (rt.FuncName pc) "runtime.call64" = true →
      obj.stack.takeWhile (fun pc => !strings.Contains (rt.FuncName pc) "runtime.call64")
        = pre) := by
  refine ⟨?_, ?_, ?_⟩
  · have hs := getStackLoop_spec rt obj.stack [] fs
    simp only [List.nil_append, exists_eq_left'] at hs
    rw [← hs]
    simp only [getStack, hc, hnil]
    cases getStackLoop rt obj.stack [] with
    | none => simp
    | some cache => simp
  · intro h
    rw [List.takeWhile_eq_self_iff]
    intro pc hpc
    simp [h pc hpc]
  · intro pre pc post hst hpre hpc
    rw [hst, List.takeWhile_append_of_pos]
    · simp [List.takeWhile_cons, hpc]
    · intro q hq
      simp [hpre q hq]

/-- Witness of C19 on the chain of `reflectWorld`, whose raw stack has the
dispatch frame in third place. -/
theorem getStack_truncates_witness :
    reflectWorld.load 0
        = some { underlying := [.plain "base"], stack := [300, 301, 302, 303],
                 frameCache := none } ∧
    ((∃ w1, getStack mainRuntime reflectWorld 0 = some (reflectFrames, w1)) ↔
      reflectFrames.map some
        = (([300, 301, 302, 303] : List Nat).takeWhile
            (fun pc => !strings.Contains (mainRuntime.FuncName pc) "runtime.call64")).map
            (resolvePC mainRuntime)) :=
  ⟨rfl, (getStack_truncates mainRuntime reflectWorld 0 _ reflectFrames rfl rfl).1⟩

/-! ## Reading the source line -/

theorem splitGo_ne_nil (sep s : List Char) (skip : Nat) (cur : List Char) :
    strings.splitGo sep s skip cur ≠ [] := by
  induction s generalizing skip cur with
  | nil => simp [strings.splitGo]
  | cons c cs ih =>
    cases skip with
    | succ k =>
      simp only [strings.splitGo]
      exact ih k cur
    | zero =>
      simp only [strings.splitGo]
      split
      · simp
      · exact ih 0 (c :: cur)

theorem Split_length_pos (s sep : String) : 0 < (strings.Split s sep).length :=
  List.length_pos.mpr (splitGo_ne_nil _ _ _ _)

/-- What `getFileLine` does in each case: the sentinel for an unreadable file; for
a readable file with `k` parts, the sentinel for `line ≥ k`, a fault for
`line ≤ 0`, and the trimmed part `line - 1` for `1 ≤ line < k`. -/
theorem getFileLine_cases (rt : Runtime) (file : String) (line : Int) :
    (rt.ReadFile file = none → getFileLine rt file line = some "[file not found]") ∧
    (∀ bss, rt.ReadFile file = some bss →
      (((strings.Split bss "\n").length : Int) ≤ line →
        getFileLine rt file line = some "[line not found]") ∧
      (line ≤ 0 → getFileLine rt file line = none) ∧
      (1 ≤ line → line < ((strings.Split bss "\n").length : Int) →
        ∃ l, (strings.Split bss "\n")[(line - 1).toNat]? = some l ∧
          getFileLine rt file line = some (strings.Trim l " \t"))) := by
  refine ⟨fun h => by simp [getFileLine, h], fun bss h => ⟨?_, ?_, ?_⟩⟩
  · intro hk
    simp [getFileLine, h, hk]
  · intro h0
    have hk := Split_length_pos bss "\n"
    have h1 : ¬ (((strings.Split bss "\n").length : Int) ≤ line) := by omega
    have h2 : line - 1 < 0 := by omega
    simp [getFileLine, h, h1, h2]
  · intro h1 hk
    have h3 : ¬ (((strings.Split bss "\n").length : Int) ≤ line) := by omega
    have h4 : ¬ (line - 1 < 0) := by omega
    have h5 : (line - 1).toNat < (strings.Split bss "\n").length := by omega
    refine ⟨(strings.Split bss "\n")[(line - 1).toNat], List.getElem?_eq_getElem h5, ?_⟩
    simp only [getFileLine, h, ge_iff_le, h3, if_false, h4, List.getElem?_eq_getElem h5]

/-- C17, evaluated: for the readable file `main.go`, line `0` and line `-3` make
`getFileLine` index `lines[line-1]` out of range (a fault, no string returned);
the unreadable file and the line past the end give the two sentinels. -/
theorem getFileLine_line_zero_faults :
    mainRuntime.ReadFile "main.go" ≠ none ∧
    getFileLine mainRuntime "main.go" 0 = none ∧
    getFileLine mainRuntime "main.go" (-3) = none ∧
    getFileLine mainRuntime "nofile.go" 0 = some "[file not found]" ∧
    getFileLine mainRuntime "main.go" 99 = some "[line not found]" := by
  refine ⟨by decide, rfl, rfl, rfl, rfl⟩

/-- C18, evaluated: `last.go` does not end with a newline and splits on `"\n"`
into `k = 3` lines; for line `3`, the last line, `getFileLine` returns the
sentinel `"[line not found]"` and not the text of the line, and so does the frame
of a chain created on that line; line `1` is returned. -/
theorem getFileLine_last_line_not_found :
    mainRuntime.ReadFile "last.go" = some "package main\n\nvar errInit = ae.Errorf(msg)" ∧
    strings.Split "package main\n\nvar errInit = ae.Errorf(msg)" "\n"
      = ["package main", "", "var errInit = ae.Errorf(msg)"] ∧
    getFileLine mainRuntime "last.go" 3 = some "[line not found]" ∧
    getFileLine mainRuntime "last.go" 1 = some "package main" ∧
    (∃ w1, Errorf mainRuntime [304] World.init "init" [] = some (some (.chain 0), w1) ∧
      (Stack mainRuntime w1 0).map Prod.fst
        = some "last.go:3 main.init: [line not found]") := by
  refine ⟨rfl, rfl, rfl, rfl, _, wrapF_plain mainRuntime _ World.init "init" [], ?_⟩
  have h := created_stack mainRuntime _ World.init [GoError.plain "init"] mainRuntime.pcErrorf
    [304] rfl
  rw [Stack_map_fst, getStack_fst mainRuntime _ 0 _ h]
  rfl

/-! ## Splitting the stack string -/

theorem noSep_of_Contains (s : String) (h : strings.Contains s StackSeparator = false) :
    ∀ t ∈ s.toList.tails, [';', ' '].isPrefixOf t = false := by
  intro t ht
  simp only [strings.Contains, List.any_eq_false] at h
  exact Bool.eq_false_iff.mpr (h t ht)

theorem splitGo_no_sep (x cur : List Char)
    (h : ∀ t ∈ x.tails, [';', ' '].isPrefixOf t = false) :
    strings.splitGo [';', ' '] x 0 cur = [String.mk (cur.reverse ++ x)] := by
  induction x generalizing cur with
  | nil => simp [strings.splitGo]
  | cons c x1 ih =>
    have hc : [';', ' '].isPrefixOf (c :: x1) = false := h _ (by simp)
    have hx : ∀ t ∈ x1.tails, [';', ' '].isPrefixOf t = false :=
      fun t ht => h t (by simp [ht])
    simp only [strings.splitGo, hc, Bool.false_eq_true, if_false]
    rw [ih (c :: cur) hx]
    simp

theorem splitGo_sep (x cur rest : List Char)
    (h : ∀ t ∈ x.tails, [';', ' '].isPrefixOf t = false) :
    strings.splitGo [';', ' '] (x ++ ';' :: ' ' :: rest) 0 cur
      = String.mk (cur.reverse ++ x) :: strings.splitGo [';', ' '] rest 0 [] := by
  induction x generalizing cur with
  | nil => simp [strings.splitGo, List.isPrefixOf]
  | cons c x1 ih =>
    have hc : [';', ' '].isPrefixOf (c :: x1) = false := h _ (by simp)
    have hx : ∀ t ∈ x1.tails, [';', ' '].isPrefixOf t = false :=
      fun t ht => h t (by simp [ht])
    have hc2 : [';', ' '].isPrefixOf (c :: (x1 ++ ';' :: ' ' :: rest)) = false := by
      cases x1 with
      | nil =>
        simp only [List.nil_append, List.isPrefixOf, Bool.and_eq_false_imp]
        intro _
        decide
      | cons d x2 =>
        simpa [List.isPrefixOf] using hc
    have e : (c :: x1) ++ ';' :: ' ' :: rest = c :: (x1 ++ ';' :: ' ' :: rest) := rfl
    rw [e, strings.splitGo]
    simp only [hc2, Bool.false_eq_true, if_false]
    rw [ih (c :: cur) hx]
    simp

theorem intercalate_go_data (sep acc : String) (xs : List String) :
    (String.intercalate.go acc sep xs).data
      = acc.data ++ (xs.map (fun y => sep.data ++ y.data)).flatten := by
  induction xs generalizing acc with
  | nil => simp [String.intercalate.go]
  | cons x rest ih =>
    simp only [String.intercalate.go, ih, String.data_append, List.map_cons, List.flatten_cons,
      List.append_assoc]

theorem splitGo_joined (x : String) (xs : List String)
    (hx : strings.Contains x StackSeparator = false)
    (hxs : ∀ y ∈ xs, strings.Contains y StackSeparator = false) :
    strings.splitGo [';', ' '] (x.data ++ (xs.map (fun y => ';' :: ' ' :: y.data)).flatten) 0 []
      = x :: xs := by
  induction xs generalizing x with
  | nil =>
    simp only [List.map_nil, List.flatten_nil, List.append_nil]
    rw [splitGo_no_sep x.data [] (noSep_of_Contains x hx)]
    rfl
  | cons y rest ih =>
    have e : x.data ++ ((y :: rest).map (fun y => ';' :: ' ' :: y.data)).flatten
        = x.data ++ ';' :: ' ' :: (y.data ++ (rest.map (fun y => ';' :: ' ' :: y.data)).flatten) :=
      rfl
    rw [e, splitGo_sep x.data [] _ (noSep_of_Contains x hx)]
    rw [ih y (hxs y (by simp)) (fun z hz => hxs z (by simp [hz]))]
    rfl

theorem Split_intercalate (xs : List String) (hne : xs ≠ [])
    (hxs : ∀ y ∈ xs, strings.Contains y StackSeparator = false) :
    strings.Split (StackSeparator.intercalate xs) StackSeparator = xs := by
  cases xs with
  | nil => exact absurd rfl hne
  | cons x rest =>
    have hd : (StackSeparator.intercalate (x :: rest)).toList
        = x.data ++ (rest.map (fun y => ';' :: ' ' :: y.data)).flatten := by
      simp only [String.intercalate, String.toList, intercalate_go_data]
      rfl
    simp only [strings.Split, hd]
    exact splitGo_joined x rest (hxs x (by simp)) (fun y hy => hxs y (by simp [hy]))

/-- C11, as amended: when `getStack()` returns `N ≥ 1` frames none of whose
renderings contains `StackSeparator`, `strings.Split(Stack(), StackSeparator)` is
exactly the list of the `N` renderings, in order, and every part is non-empty. -/
theorem Split_Stack_frames (rt : Runtime) (w : World) (p : Nat) (fs : List stackFrame)
    (w1 : World) (h : getStack rt w p = some (fs, w1)) (hne : fs ≠ [])
    (hsep : ∀ f ∈ fs, strings.Contains (frameText f) StackSeparator = false) :
    ∃ s, Stack rt w p = some (s, w1) ∧
      strings.Split s StackSeparator = fs.map frameText ∧
      (strings.Split s StackSeparator).length = fs.length ∧
      ∀ part ∈ strings.Split s StackSeparator, 0 < part.length := by
  have hsplit : strings.Split (StackLoop fs "") StackSeparator = fs.map frameText := by
    rw [StackLoop_eq_intercalate]
    apply Split_intercalate
    · simpa using hne
    · intro y hy
      obtain ⟨f, hf, rfl⟩ := List.mem_map.mp hy
      exact hsep f hf
  refine ⟨StackLoop fs "", by simp [Stack, h], hsplit, by simp [hsplit], ?_⟩
  intro part hpart
  rw [hsplit] at hpart
  obtain ⟨f, _, rfl⟩ := List.mem_map.mp hpart
  exact frameText_length_pos f

/-- Witness of C11 as amended, on the chain of `sampleWorld`. -/
theorem Split_Stack_frames_witness :
    getStack sampleRuntime sampleWorld 0 = some (sampleFrames, sampleWorldResolved) ∧
    sampleFrames ≠ [] ∧
    (∀ f ∈ sampleFrames, strings.Contains (frameText f) StackSeparator = false) ∧
    ∃ s, Stack sampleRuntime sampleWorld 0 = some (s, sampleWorldResolved) ∧
      strings.Split s StackSeparator = sampleFrames.map frameText ∧
      (strings.Split s StackSeparator).length = sampleFrames.length ∧
      ∀ part ∈ strings.Split s StackSeparator, 0 < part.length :=
  ⟨rfl, by decide, by decide,
   Split_Stack_frames sampleRuntime sampleWorld 0 sampleFrames sampleWorldResolved rfl
     (by decide) (by decide)⟩

/-- C11 as stated fails.  A chain created in `inner`, called from the line
`if err := inner(); err != nil` of `outer`, has `N = 2` resolved frames, and its
`Stack()` string splits into 3 parts; a chain created by a call of `Wrap` made
through `reflect` has `N = 0` resolved frames, and its `Stack()` string, the empty
string, splits into 1 part, which is empty. -/
theorem Split_Stack_parts_differ :
    (∃ w1, Wrap mainRuntime [300, 301] World.init (some (.plain "base"))
        = some (some (.chain 0), w1) ∧
      (getStack mainRuntime w1 0).map Prod.fst = some reflectFrames ∧
      reflectFrames.length = 2 ∧
      (Stack mainRuntime w1 0).map Prod.fst
        = some ("main.go:4 main.inner: return ae.Wrap(errBase); " ++
                "main.go:8 main.outer: if err := inner(); err != nil \x7b") ∧
      strings.Split ("main.go:4 main.inner: return ae.Wrap(errBase); " ++
                "main.go:8 main.outer: if err := inner(); err != nil \x7b") StackSeparator
        = ["main.go:4 main.inner: return ae.Wrap(errBase)",
           "main.go:8 main.outer: if err := inner()", "err != nil \x7b"]) ∧
    (∃ w1, Wrap mainRuntime [302, 303] World.init (some (.plain "base"))
        = some (some (.chain 0), w1) ∧
      (getStack mainRuntime w1 0).map Prod.fst = some [] ∧
      (Stack mainRuntime w1 0).map Prod.fst = some "" ∧
      strings.Split "" StackSeparator = [""]) := by
  constructor
  · have h := created_stack mainRuntime _ World.init [GoError.plain "base"] mainRuntime.pcWrap
      [300, 301] rfl
    refine ⟨_, wrapF_plain mainRuntime _ World.init "base" [], ?_, rfl, ?_, rfl⟩
    · rw [getStack_fst mainRuntime _ 0 _ h]
      rfl
    · rw [Stack_map_fst, getStack_fst mainRuntime _ 0 _ h]
      rfl
  · have h := created_stack mainRuntime _ World.init [GoError.plain "base"] mainRuntime.pcWrap
      [302, 303] rfl
    refine ⟨_, wrapF_plain mainRuntime _ World.init "base" [], ?_, ?_, rfl⟩
    · rw [getStack_fst mainRuntime _ 0 _ h]
      rfl
    · rw [Stack_map_fst, getStack_fst mainRuntime _ 0 _ h]
      rfl

/-! ## Sequences of calls -/

theorem sampleCalls_run : runCalls sampleRuntime World.init sampleCalls = some sampleCallsWorld := by
  simp [runCalls, sampleCalls, Call.run, Wrap, Wrapf, Errorf, wrapF, getStackPC,
    getStackPCLoop_eq, World.alloc, World.load, World.store, World.init, fmtErrorf,
    sampleCallers, sampleCallsWorld]
  decide

theorem load_created_old (rt : Runtime) (callStack : List Nat) (w : World) (errs : List GoError)
    (q : Nat) (obj : appError) (h : w.load q = some obj) :
    (created rt callStack w errs).load q = some obj := by
  simp only [World.load] at h
  have hq : q < w.heap.length := (List.getElem?_eq_some.mp h).1
  simp only [World.load, created, List.getElem?_append_left hq, h]

theorem load_created_inv (rt : Runtime) (callStack : List Nat) (w : World) (errs : List GoError)
    (q : Nat) (obj : appError) (h : (created rt callStack w errs).load q = some obj) :
    w.load q = some obj ∨ obj.underlying = errs := by
  by_cases hq : q < w.heap.length
  · left
    simpa [World.load, created, List.getElem?_append_left hq] using h
  · right
    have hq1 : w.heap.length ≤ q := Nat.le_of_not_lt hq
    simp only [World.load, created, List.getElem?_append_right hq1] at h
    cases hd : q - w.heap.length with
    | zero =>
      simp only [hd, List.getElem?_cons_zero, Option.some.injEq] at h
      rw [← h]
    | succ k => simp [hd] at h

theorem allPlain_append (xs ys : List GoError) (hx : allPlain xs = true)
    (hy : allPlain ys = true) : allPlain (xs ++ ys) = true := by
  simp only [allPlain, List.all_append, Bool.and_eq_true] at hx hy ⊢
  exact ⟨hx, hy⟩

/-- What one `wrapF` call does to the invariant, to the root causes and to the
number of chains and of stack captures. -/
theorem wrapF_step (rt : Runtime) (callStack : List Nat) (w : World)
    (underlying : Option GoError) (extraErrors : List GoError) (r : Option GoError)
    (w1 : World) (h : wrapF rt callStack w underlying extraErrors = some (r, w1))
    (hextra : allPlain extraErrors = true) :
    (wellFormed w → wellFormed w1) ∧
    (∀ p e, First w p = some e → First w1 p = some e) ∧
    w1.heap.length = w.heap.length +
      (match underlying with
        | some (.plain _) => 1
        | _ => 0) ∧
    w1.stackCaptures.length = w.stackCaptures.length +
      (match underlying with
        | some (.plain _) => 1
        | _ => 0) := by
  match underlying, h with
  | none, h =>
    simp only [wrapF, Option.some.injEq, Prod.mk.injEq] at h
    obtain ⟨_, rfl⟩ := h
    exact ⟨id, fun _ _ hf => hf, rfl, rfl⟩
  | some (.plain msg), h =>
    rw [wrapF_plain] at h
    simp only [Option.some.injEq, Prod.mk.injEq] at h
    obtain ⟨_, rfl⟩ := h
    refine ⟨?_, ?_, by simp [created], by simp [created]⟩
    · intro hw p obj hp
      rcases load_created_inv rt callStack w _ p obj hp with hold | hnew
      · exact hw p obj hold
      · rw [hnew]
        refine ⟨by simp, ?_⟩
        simpa [allPlain] using hextra
    · intro p e hf
      cases hp : w.load p with
      | none => simp [First, hp] at hf
      | some obj =>
        simp only [First, hp] at hf
        simp only [First, load_created_old rt callStack w _ p obj hp, hf]
  | some (.chain c), h =>
    by_cases hlen : extraErrors.length > 0
    · cases hc : w.load c with
      | none => simp [wrapF, hlen, hc] at h
      | some obj =>
        simp only [wrapF, hlen, if_true, hc, Option.some.injEq, Prod.mk.injEq] at h
        obtain ⟨_, rfl⟩ := h
        refine ⟨?_, ?_, by simp [World.store], by simp [World.store]⟩
        · intro hw p o hp
          by_cases hpc : p = c
          · subst hpc
            rw [load_store_same w p obj _ hc] at hp
            simp only [Option.some.injEq] at hp
            rw [← hp]
            have ho := hw p obj hc
            exact ⟨by simp [ho.1], allPlain_append _ _ ho.2 hextra⟩
          · rw [load_store_other w c p _ hpc] at hp
            exact hw p o hp
        · intro p e hf
          by_cases hpc : p = c
          · subst hpc
            simp only [First, hc] at hf
            simp only [First, load_store_same w p obj _ hc]
            cases hu : obj.underlying with
            | nil => simp [hu] at hf
            | cons x xs =>
              simp only [hu, List.getElem?_cons_zero] at hf
              simp [hf]
          · simpa [First, load_store_other w c p _ hpc] using hf
    · simp only [wrapF, hlen, if_false, Option.some.injEq, Prod.mk.injEq] at h
      obtain ⟨_, rfl⟩ := h
      exact ⟨id, fun _ _ hf => hf, rfl, rfl⟩

theorem Call_run_step (rt : Runtime) (w : World) (c : Call) (r : Option GoError) (w1 : World)
    (h : c.run rt w = some (r, w1)) :
    (wellFormed w → wellFormed w1) ∧
    (∀ p e, First w p = some e → First w1 p = some e) ∧
    w1.heap.length = w.heap.length + (if c.wrapsPlain = true then 1 else 0) ∧
    w1.stackCaptures.length
      = w.stackCaptures.length + (if c.wrapsPlain = true then 1 else 0) := by
  cases c with
  | Wrap callers underlying =>
    have h1 : wrapF rt (rt.pcWrapF :: rt.pcWrap :: callers) w underlying [] = some (r, w1) := h
    have hs := wrapF_step rt _ w underlying [] r w1 h1 rfl
    cases underlying with
    | none => exact hs
    | some e =>
      cases e with
      | plain msg => exact hs
      | chain q => exact hs
  | Wrapf callers underlying format a =>
    cases underlying with
    | none =>
      simp only [Call.run, Wrapf, Option.some.injEq, Prod.mk.injEq] at h
      obtain ⟨_, rfl⟩ := h
      exact ⟨id, fun _ _ hf => hf, rfl, rfl⟩
    | some e =>
      have h1 : wrapF rt (rt.pcWrapF :: rt.pcWrapf :: callers) w (some e)
          [fmtErrorf rt format a] = some (r, w1) := h
      have hs := wrapF_step rt _ w (some e) [fmtErrorf rt format a] r w1 h1 rfl
      cases e with
      | plain msg => exact hs
      | chain q => exact hs
  | Errorf callers format a =>
    have h1 : wrapF rt (rt.pcWrapF :: rt.pcErrorf :: callers) w (some (fmtErrorf rt format a)) []
        = some (r, w1) := h
    exact wrapF_step rt _ w (some (fmtErrorf rt format a)) [] r w1 h1 rfl

theorem runCalls_steps (rt : Runtime) (w : World) (calls : List Call) (w2 : World)
    (h : runCalls rt w calls = some w2) :
    (wellFormed w → wellFormed w2) ∧
    (∀ p e, First w p = some e → First w2 p = some e) ∧
    w2.heap.length = w.heap.length + calls.countP Call.wrapsPlain ∧
    w2.stackCaptures.length = w.stackCaptures.length + calls.countP Call.wrapsPlain := by
  induction calls generalizing w with
  | nil =>
    simp only [runCalls, Option.some.injEq] at h
    subst h
    exact ⟨id, fun _ _ hf => hf, rfl, rfl⟩
  | cons c rest ih =>
    cases hc : c.run rt w with
    | none => simp [runCalls, hc] at h
    | some r =>
      simp only [runCalls, hc] at h
      obtain ⟨s1, s2, s3, s4⟩ := Call_run_step rt w c r.1 r.2 hc
      obtain ⟨t1, t2, t3, t4⟩ := ih r.2 h
      refine ⟨fun hw => t1 (s1 hw), fun p e hf => t2 p e (s2 p e hf), ?_, ?_⟩
      · rw [t3, s3, List.countP_cons]
        omega
      · rw [t4, s4, List.countP_cons]
        omega

theorem wellFormed_of_empty (w : World) (h : w.heap = []) : wellFormed w := by
  intro p obj hp
  simp [World.load, h] at hp

/-- C14: every chain allocated in a state reached from a state without chains by
any sequence of `Wrap`, `Wrapf` and `Errorf` calls has a non-empty causes list,
and `First()` and `Last()` on it return a cause (no index out of range). -/
theorem causes_nonempty (rt : Runtime) (w0 : World) (calls : List Call) (w : World) (p : Nat)
    (obj : appError) (h0 : w0.heap = []) (hrun : runCalls rt w0 calls = some w)
    (hc : w.load p = some obj) :
    obj.underlying ≠ [] ∧
    (∃ e, First w p = some e ∧ obj.underlying.head? = some e) ∧
    (∃ e, Last w p = some e ∧ obj.underlying.getLast? = some e) := by
  have hw := (runCalls_steps rt w0 calls w hrun).1 (wellFormed_of_empty w0 h0)
  have hne := (hw p obj hc).1
  refine ⟨hne, ?_, ?_⟩
  · cases hu : obj.underlying with
    | nil => exact absurd hu hne
    | cons x xs => exact ⟨x, by simp [First, hc, hu], rfl⟩
  · have hlen : obj.underlying.length ≠ 0 := by
      intro h
      exact hne (List.length_eq_zero.mp h)
    have hlt : obj.underlying.length - 1 < obj.underlying.length := by omega
    refine ⟨obj.underlying[obj.underlying.length - 1], ?_, ?_⟩
    · simp only [Last, hc, hlen, if_false, List.getElem?_eq_getElem hlt]
    · rw [List.getLast?_eq_getElem?, List.getElem?_eq_getElem hlt]

/-- Witness of C14 on the first chain of `sampleCallsWorld`. -/
theorem causes_nonempty_witness :
    World.init.heap = [] ∧
    runCalls sampleRuntime World.init sampleCalls = some sampleCallsWorld ∧
    sampleCallsWorld.load 0
      = some { underlying := [.plain "test", .plain "err 1 2 4"], stack := [100, 101, 102],
               frameCache := none } ∧
    ([GoError.plain "test", GoError.plain "err 1 2 4"] ≠ [] ∧
     (∃ e, First sampleCallsWorld 0 = some e ∧
       [GoError.plain "test", GoError.plain "err 1 2 4"].head? = some e) ∧
     (∃ e, Last sampleCallsWorld 0 = some e ∧
       [GoError.plain "test", GoError.plain "err 1 2 4"].getLast? = some e)) :=
  ⟨rfl, sampleCalls_run, rfl,
   causes_nonempty sampleRuntime World.init sampleCalls sampleCallsWorld 0 _ rfl
     sampleCalls_run rfl⟩

/-- C15: a chain `c` created by `Wrap` or `Wrapf` from a plain error `e` has
`First() = e`; after any sequence of later `Wrap`, `Wrapf` and `Errorf` calls
`First()` on `c` is still `e`; a `Wrapf(c, format, args)` then returns `c` with
`Last()` the formatted error just added and `First()` still `e`; and on every
chain `First()` is `Errors()[0]` and `Last()` is the final element of `Errors()`. -/
theorem First_kept_Last_newest (rt : Runtime) (callers callers2 : List Nat) (w w1 w2 : World)
    (msg format0 format : String) (a0 a : List Arg) (c : Nat) (calls : List Call)
    (hcreate : Wrap rt callers w (some (.plain msg)) = some (some (.chain c), w1) ∨
      Wrapf rt callers w (some (.plain msg)) format0 a0 = some (some (.chain c), w1))
    (hrun : runCalls rt w1 calls = some w2) :
    First w1 c = some (.plain msg) ∧
    First w2 c = some (.plain msg) ∧
    (∃ w3, Wrapf rt callers2 w2 (some (.chain c)) format a = some (some (.chain c), w3) ∧
      Last w3 c = some (fmtErrorf rt format a) ∧ First w3 c = some (.plain msg)) ∧
    (∀ (v : World) (q : Nat), First v q = (Errors v q).bind List.head? ∧
      Last v q = (Errors v q).bind List.getLast?) := by
  have hF1 : First w1 c = some (.plain msg) := by
    rcases hcreate with h | h
    · have h1 := wrapF_plain rt (rt.pcWrapF :: rt.pcWrap :: callers) w msg []
      have h2 : some (some (GoError.chain w.heap.length),
          created rt (rt.pcWrapF :: rt.pcWrap :: callers) w [.plain msg])
          = some (some (GoError.chain c), w1) := h1.symm.trans h
      simp only [Option.some.injEq, Prod.mk.injEq, GoError.chain.injEq] at h2
      obtain ⟨rfl, rfl⟩ := h2
      simp [First, load_created]
    · have h1 := wrapF_plain rt (rt.pcWrapF :: rt.pcWrapf :: callers) w msg
        [fmtErrorf rt format0 a0]
      have h2 : some (some (GoError.chain w.heap.length),
          created rt (rt.pcWrapF :: rt.pcWrapf :: callers) w
            [.plain msg, fmtErrorf rt format0 a0])
          = some (some (GoError.chain c), w1) := h1.symm.trans h
      simp only [Option.some.injEq, Prod.mk.injEq, GoError.chain.injEq] at h2
      obtain ⟨rfl, rfl⟩ := h2
      simp [First, load_created]
  have hF2 : First w2 c = some (.plain msg) := (runCalls_steps rt w1 calls w2 hrun).2.1 c _ hF1
  refine ⟨hF1, hF2, ?_, ?_⟩
  · cases hc : w2.load c with
    | none => simp [First, hc] at hF2
    | some obj =>
      have hW : Wrapf rt callers2 w2 (some (.chain c)) format a
          = some (some (.chain c),
              w2.store c { obj with underlying := obj.underlying ++ [fmtErrorf rt format a] }) := by
        simp [Wrapf, wrapF, hc]
      have hstep := wrapF_step rt (rt.pcWrapF :: rt.pcWrapf :: callers2) w2 (some (.chain c))
        [fmtErrorf rt format a] _ _ hW rfl
      refine ⟨_, hW, ?_, hstep.2.1 c _ hF2⟩
      simp [Last, load_store_same w2 c obj _ hc]
  · intro v q
    cases hq : v.load q with
    | none => simp [First, Last, Errors, hq]
    | some obj =>
      constructor
      · cases hu : obj.underlying with
        | nil => simp [First, Errors, hq, hu]
        | cons x xs => simp [First, Errors, hq, hu]
      · cases hu : obj.underlying with
        | nil => simp [Last, Errors, hq, hu]
        | cons x xs =>
          have hl : (x :: xs).getLast? = (x :: xs)[(x :: xs).length - 1]? :=
            List.getLast?_eq_getElem? _
          simp only [Last, Errors, hq, hu, List.length_cons, Nat.add_one_ne_zero, if_false,
            Option.bind]
          exact hl.symm

/-- Witness of C15: the chain of `sampleWorld`, created by `Wrap`, followed by
the remaining calls of `sampleCalls`. -/
theorem First_kept_Last_newest_witness :
    (Wrap sampleRuntime sampleCallers World.init (some (.plain "test"))
        = some (some (.chain 0), sampleWorld) ∨
      Wrapf sampleRuntime sampleCallers World.init (some (.plain "test")) "" []
        = some (some (.chain 0), sampleWorld)) ∧
    runCalls sampleRuntime sampleWorld sampleCalls.tail = some sampleCallsWorld ∧
    (First sampleWorld 0 = some (.plain "test") ∧
     First sampleCallsWorld 0 = some (.plain "test") ∧
     (∃ w3, Wrapf sampleRuntime sampleCallers sampleCallsWorld (some (.chain 0)) "ctx" []
        = some (some (.chain 0), w3) ∧
       Last w3 0 = some (fmtErrorf sampleRuntime "ctx" []) ∧
       First w3 0 = some (.plain "test")) ∧
     (∀ (v : World) (q : Nat), First v q = (Errors v q).bind List.head? ∧
       Last v q = (Errors v q).bind List.getLast?)) :=
  have hcreate : Wrap sampleRuntime sampleCallers World.init (some (.plain "test"))
      = some (some (.chain 0), sampleWorld) := by
    simp [Wrap, wrapF, getStackPC, getStackPCLoop_eq, World.alloc, World.init, sampleCallers,
      sampleWorld]
  have hrun : runCalls sampleRuntime sampleWorld sampleCalls.tail = some sampleCallsWorld := by
    simp [runCalls, sampleCalls, Call.run, Wrap, Wrapf, Errorf, wrapF, getStackPC,
      getStackPCLoop_eq, World.alloc, World.load, World.store, sampleWorld, fmtErrorf,
      sampleCallers, sampleCallsWorld]
    decide
  ⟨Or.inl hcreate, hrun,
   First_kept_Last_newest sampleRuntime sampleCallers sampleCallers World.init sampleWorld
     sampleCallsWorld "test" "" "ctx" [] [] 0 sampleCalls.tail (Or.inl hcreate) hrun⟩

/-- C20: in every state reached from a state without chains by any sequence of
`Wrap`, `Wrapf` and `Errorf` calls, no cause of any chain is itself a chain, and
the number of chains, like the number of stack captures made, equals the number of
calls whose base error was a plain error. -/
theorem chains_never_nest (rt : Runtime) (w0 : World) (calls : List Call) (w : World)
    (h0 : w0.heap = []) (hrun : runCalls rt w0 calls = some w) :
    (∀ p obj q, w.load p = some obj → GoError.chain q ∉ obj.underlying) ∧
    (∀ p obj, w.load p = some obj → allPlain obj.underlying = true) ∧
    w.heap.length = calls.countP Call.wrapsPlain ∧
    w.stackCaptures.length = w0.stackCaptures.length + calls.countP Call.wrapsPlain := by
  obtain ⟨s1, _, s3, s4⟩ := runCalls_steps rt w0 calls w hrun
  have hw := s1 (wellFormed_of_empty w0 h0)
  refine ⟨?_, fun p obj hp => (hw p obj hp).2, by simp [s3, h0], s4⟩
  intro p obj q hp hmem
  have hall := (hw p obj hp).2
  simp only [allPlain, List.all_eq_true] at hall
  simpa using hall _ hmem

/-- Witness of C20 on `sampleCalls`: five calls, two of them with a plain base,
two chains. -/
theorem chains_never_nest_witness :
    World.init.heap = [] ∧
    runCalls sampleRuntime World.init sampleCalls = some sampleCallsWorld ∧
    ((∀ p obj q, sampleCallsWorld.load p = some obj → GoError.chain q ∉ obj.underlying) ∧
     (∀ p obj, sampleCallsWorld.load p = some obj → allPlain obj.underlying = true) ∧
     sampleCallsWorld.heap.length = sampleCalls.countP Call.wrapsPlain ∧
     sampleCallsWorld.stackCaptures.length
       = World.init.stackCaptures.length + sampleCalls.countP Call.wrapsPlain) :=
  ⟨rfl, sampleCalls_run,
   chains_never_nest sampleRuntime World.init sampleCalls sampleCallsWorld rfl sampleCalls_run⟩

end ae
